import Mathlib

/-!
Verification of the factorio-ai repository's spatial composition engine
(`tools/compose-blueprint`), blueprint transform (`scripts/transform-blueprint`)
and flow analyzer (`scripts/blueprint-flow.ts`).

The TypeScript sources are shallowly embedded: JavaScript numbers are modelled
as exact rationals (`ℚ`) — every arithmetic operation the embedded code performs
on the inputs used here (negation, addition, halving, floor/ceil/round) is exact
on IEEE doubles for half-tile coordinates, so `ℚ` is a faithful model.
Entity records are modelled by their core fields `(name, position, direction)`;
the sources' passthrough metadata fields are never read by the embedded code.
-/

namespace FactorioAI

/-- JavaScript `Math.round`: round half toward positive infinity. -/
def jsRound (q : ℚ) : ℤ := ⌊q + 1/2⌋

/-- JavaScript `n & 3` on an int32 value: the low two bits, i.e. `n mod 4`
with a non-negative result (two's complement low bits). -/
def jsAnd3 (n : ℤ) : ℤ := n.emod 4

/-- JavaScript `%` (remainder, sign of the dividend): truncated modulus. -/
def jsRem (a b : ℤ) : ℤ := Int.tmod a b

/-- JavaScript `Math.floor(d / 4)` for an integer `d`: floor division. -/
def jsFloorDiv4 (d : ℤ) : ℤ := Int.fdiv d 4

/-- JavaScript `Math.ceil` on a rational. -/
def jsCeil (q : ℚ) : ℤ := ⌈q⌉

/-- A 2D position (tile-space center coordinates). -/
structure Pos where
  x : ℚ
  y : ℚ
  deriving DecidableEq, Repr

/-- Core fields of a blueprint entity record:
`{ name: string; position: {x, y}; direction?: number }`. -/
structure Entity where
  name : String
  position : Pos
  direction : Option ℤ
  deriving DecidableEq, Repr

/-- `String.prototype.includes` via character lists. -/
def jsIncludesAux (needle : List Char) : List Char → Bool
  | [] => needle.isPrefixOf []
  | c :: t => needle.isPrefixOf (c :: t) || jsIncludesAux needle t

/-- JavaScript `s.includes(sub)`. -/
def jsIncludes (s sub : String) : Bool := jsIncludesAux sub.toList s.toList

/-- `dirStepToVec` — direction step (0..3 after `& 3`) to a unit vector.
The same function appears verbatim in `tools/compose-blueprint`,
`scripts/transform-blueprint` and `scripts/blueprint-flow.ts`. -/
def dirStepToVec (step : ℤ) : Pos :=
  if jsAnd3 step = 0 then ⟨0, -1⟩      -- north
  else if jsAnd3 step = 1 then ⟨1, 0⟩  -- east
  else if jsAnd3 step = 2 then ⟨0, 1⟩  -- south
  else ⟨-1, 0⟩                          -- west

/-- `vecToDirStep` — unit vector back to a direction step; any unmatched
vector falls through to `3` exactly as the source's final `return 3`. -/
def vecToDirStep (v : Pos) : ℤ :=
  if v.x = 0 ∧ v.y = -1 then 0
  else if v.x = 1 ∧ v.y = 0 then 1
  else if v.x = 0 ∧ v.y = 1 then 2
  else 3

/-- The entity's `direction` field holds `4 * step`; both sources decode the
step as `Math.floor(direction / 4) & 3`. -/
def dirFieldToStep (d : ℤ) : ℤ := jsAnd3 (jsFloorDiv4 d)

namespace Compose
/-! ## `tools/compose-blueprint/index.ts` -/

/-- `SIZE_MAP` of the composer: nominal footprint `(w, h)` by entity name. -/
def SIZE_MAP (n : String) : Option (ℤ × ℤ) :=
  if n = "boiler" then some (3, 2)
  else if n = "steam-engine" then some (3, 5)
  else if n = "stone-furnace" then some (2, 2)
  else if n = "steel-furnace" then some (2, 2)
  else if n = "electric-furnace" then some (2, 2)
  else if n = "assembling-machine-1" then some (3, 3)
  else if n = "assembling-machine-2" then some (3, 3)
  else if n = "assembling-machine-3" then some (3, 3)
  else if n = "small-electric-pole" then some (1, 1)
  else if n = "inserter" then some (1, 1)
  else if n = "pipe" then some (1, 1)
  else if n = "transport-belt" then some (1, 1)
  else none

/-- One clockwise 90° step of the composer's `rotatePos`: `(x, y) → (-y, x)`. -/
def rotStep (p : Pos) : Pos := ⟨-p.y, p.x⟩

/-- `rotatePos(x, y, rot)` — apply the single-step rule `rot & 3` times. -/
def rotatePos (x y : ℚ) (rot : ℤ) : Pos :=
  rotStep^[(jsAnd3 rot).toNat] ⟨x, y⟩

/-- The continuous extent of one entity inside `footprintBounds`:
`(left, top, right, bottom)` of its transformed axis-aligned box. -/
def entityExtent (rot : ℤ) (flipX flipY : Bool) (e : Entity) : ℚ × ℚ × ℚ × ℚ :=
  let wh := (SIZE_MAP e.name).getD (1, 1)
  let dir : ℤ := match e.direction with
    | some d => jsRem (jsFloorDiv4 d) 4
    | none => 0
  let rotTotal := jsAnd3 (dir + rot)
  let ew : ℚ := if jsRem rotTotal 2 = 1 then wh.2 else wh.1
  let eh : ℚ := if jsRem rotTotal 2 = 1 then wh.1 else wh.2
  let x := if flipX then -e.position.x else e.position.x
  let y := if flipY then -e.position.y else e.position.y
  let r := rotatePos x y rot
  (r.x - ew / 2, r.y - eh / 2, r.x + ew / 2, r.y + eh / 2)

/-- Integer tile bounds of a unit's continuous footprint. -/
structure Bounds where
  xStart : ℤ
  yStart : ℤ
  xEnd : ℤ
  yEnd : ℤ
  width : ℤ
  height : ℤ
  deriving DecidableEq, Repr

/-- Accumulator step of `footprintBounds`' min/max loop. `none` plays the
role of the `Infinity` seeds: the first entity initializes all four bounds. -/
def extentFold (rot : ℤ) (flipX flipY : Bool)
    (acc : Option (ℚ × ℚ × ℚ × ℚ)) (e : Entity) : Option (ℚ × ℚ × ℚ × ℚ) :=
  let ext := entityExtent rot flipX flipY e
  match acc with
  | none => some ext
  | some (mX, mY, MX, MY) =>
      some (min mX ext.1, min mY ext.2.1, max MX ext.2.2.1, max MY ext.2.2.2)

/-- `footprintBounds(entities, rot, flipX, flipY)`. The composer only calls
this with a non-empty entity list (it exits on empty input); on an empty list
this model returns the zero bounds. -/
def footprintBounds (entities : List Entity) (rot : ℤ) (flipX flipY : Bool) : Bounds :=
  match entities.foldl (extentFold rot flipX flipY) none with
  | none => ⟨0, 0, 0, 0, 0, 0⟩
  | some (mX, mY, MX, MY) =>
      let xStart := ⌊mX⌋
      let yStart := ⌊mY⌋
      let xEnd := ⌈MX⌉ - 1
      let yEnd := ⌈MY⌉ - 1
      ⟨xStart, yStart, xEnd, yEnd, xEnd - xStart + 1, yEnd - yStart + 1⟩

/-- `flipEntity` (nested in `applyTransform`): negate selected axes of the
position, and reflect the direction vector accordingly. -/
def flipEntity (ent : Entity) (fx fy : Bool) : Entity :=
  let x := if fx then -ent.position.x else ent.position.x
  let y := if fy then -ent.position.y else ent.position.y
  let dir := match ent.direction with
    | some d =>
        let vec := dirStepToVec (dirFieldToStep d)
        let vx := if fx then -vec.x else vec.x
        let vy := if fy then -vec.y else vec.y
        some (vecToDirStep ⟨(jsRound vx : ℚ), (jsRound vy : ℚ)⟩ * 4)
    | none => none
  { ent with position := ⟨x, y⟩, direction := dir }

/-- `rotateEntity` (nested in `applyTransform`): rotate position and
direction vector by `rotSteps` clockwise 90° steps. -/
def rotateEntity (ent : Entity) (rotSteps : ℤ) : Entity :=
  let rpos := rotatePos ent.position.x ent.position.y rotSteps
  let dir := match ent.direction with
    | some d =>
        let vec := dirStepToVec (dirFieldToStep d)
        let rvec := rotatePos vec.x vec.y rotSteps
        some (vecToDirStep ⟨(jsRound rvec.x : ℚ), (jsRound rvec.y : ℚ)⟩ * 4)
    | none => none
  { ent with position := rpos, direction := dir }

/-- `snapToHalf(n)` — `Math.round(n * 2) / 2`. -/
def snapToHalf (n : ℚ) : ℚ := (jsRound (n * 2) : ℚ) / 2

/-- `applyTransform(e, flipX, flipY, rot, tx, ty)`: flip, then rotate, then
translate and snap the position to the nearest half tile. -/
def applyTransform (e : Entity) (flipX flipY : Bool) (rot : ℤ) (tx ty : ℚ) : Entity :=
  let working := rotateEntity (flipEntity e flipX flipY) rot
  { working with
    position := ⟨snapToHalf (working.position.x + tx), snapToHalf (working.position.y + ty)⟩ }

/-- Composition parameters of the `main` CLI (after argument parsing; `rot`
is stored already masked with `& 3`, mirrored here by masking at entry). -/
structure Params where
  rows : ℤ := 1
  cols : ℤ := 1
  spacingX : ℚ := 1
  spacingY : ℚ := 1
  rot : ℤ := 0
  flipX : Bool := false
  flipY : Bool := false
  normalize : Bool := true
  shareX : Bool := false
  shareY : Bool := false
  rotateBottom : Bool := false
  flipRows : List ℤ := []
  rotateRows : List (ℤ × ℤ) := []
  deriving DecidableEq, Repr

/-- Shift every entity position by `(dx, dy)` — the normalization step
`{...e, position: {x: x - minX, y: y - minY}}` with `(dx,dy) = (-minX,-minY)`. -/
def translate2 (dx dy : ℚ) (e : Entity) : Entity :=
  { e with position := ⟨e.position.x + dx, e.position.y + dy⟩ }

/-- The normalized unit: shifted so the unit's footprint origin is `(0,0)`
when `normalize` is set, the raw unit otherwise. -/
def normEntities (unit : List Entity) (p : Params) : List Entity :=
  if p.normalize then
    let fb := footprintBounds unit 0 false false
    unit.map (translate2 (-(fb.xStart : ℚ)) (-(fb.yStart : ℚ)))
  else unit

/-- `stepX = Math.max(1, Math.ceil(unitWidth + spacingX - (shareX ? 1 : 0)))`. -/
def stepOf (unitSpan : ℤ) (spacing : ℚ) (share : Bool) : ℤ :=
  max 1 (jsCeil ((unitSpan : ℚ) + spacing - (if share then 1 else 0)))

/-- The effective per-tile transform for grid row `r`: base `rot`/flips plus
`--flip-row`, `--rotate-row` and the legacy `--rotate-bottom` adjustments. -/
def tileTransform (p : Params) (r : ℤ) : ℤ × Bool × Bool :=
  let tileRot := jsAnd3 p.rot
  let tileFlipY := p.flipY
  let tileFlipY := if p.flipRows.contains r then !tileFlipY else tileFlipY
  let tileRot := match (p.rotateRows.find? (fun rr => rr.1 = r)).map (·.2) with
    | some rv => jsAnd3 (tileRot + rv)
    | none => tileRot
  let tileFlipY :=
    if p.rotateBottom && decide (r ≥ Int.fdiv p.rows 2) then !tileFlipY else tileFlipY
  (tileRot, p.flipX, tileFlipY)

/-- Entities produced for grid cell `(r, c)`: resolve the per-tile transform,
align the tile footprint to the base footprint, and transform every member. -/
def tileEntities (norm : List Entity) (p : Params) (baseFoot : Bounds)
    (stepX stepY : ℤ) (r c : ℤ) : List Entity :=
  let t := tileTransform p r
  let tileRot := t.1
  let tileFlipX := t.2.1
  let tileFlipY := t.2.2
  let tileFoot := footprintBounds norm tileRot tileFlipX tileFlipY
  let alignX := baseFoot.xStart - tileFoot.xStart
  let alignY := baseFoot.yStart - tileFoot.yStart
  norm.map (fun e =>
    applyTransform e tileFlipX tileFlipY tileRot
      ((c * stepX + alignX : ℤ) : ℚ) ((r * stepY + alignY : ℤ) : ℚ))

/-- `stepX` as `main` computes it from the normalized unit's footprint. -/
def stepXOfUnit (unit : List Entity) (p : Params) : ℤ :=
  stepOf (footprintBounds (normEntities unit p) (jsAnd3 p.rot) p.flipX p.flipY).width
    p.spacingX p.shareX

/-- `stepY` as `main` computes it from the normalized unit's footprint. -/
def stepYOfUnit (unit : List Entity) (p : Params) : ℤ :=
  stepOf (footprintBounds (normEntities unit p) (jsAnd3 p.rot) p.flipX p.flipY).height
    p.spacingY p.shareY

/-- The full multiset of transformed entities pushed onto `outEntities`,
rows outer, columns inner. -/
def outEntitiesOf (unit : List Entity) (p : Params) : List Entity :=
  ((List.range p.rows.toNat).map (Int.ofNat)).flatMap (fun r =>
    ((List.range p.cols.toNat).map (Int.ofNat)).flatMap (fun c =>
      tileEntities (normEntities unit p) p
        (footprintBounds (normEntities unit p) (jsAnd3 p.rot) p.flipX p.flipY)
        (stepXOfUnit unit p) (stepYOfUnit unit p) r c))

/-- The dedup key `` `${name}@${px},${py}:dir=${dirVal}` ``. Positions are
snapped to half tiles before dedup, so the one-decimal `toFixed(1)` rendering
is injective and the key is equivalent to the exact tuple. -/
def entityKey (e : Entity) : String × ℚ × ℚ × Option ℤ :=
  (e.name, e.position.x, e.position.y, e.direction)

/-- The dedup loop with its `seen` key set: first occurrence of each key
wins, later duplicates drop (`if (seen.has(k)) continue; seen.add(k)`). -/
def dedupAux (seen : List (String × ℚ × ℚ × Option ℤ)) :
    List Entity → List Entity
  | [] => []
  | e :: t =>
      if entityKey e ∈ seen then dedupAux seen t
      else e :: dedupAux (entityKey e :: seen) t

/-- The dedup loop started with an empty `seen` set. -/
def dedupByKey (l : List Entity) : List Entity := dedupAux [] l

/-- Producer test of the repair pass:
`e.name.includes('furnace') || e.name.includes('assembling-machine')`
with both axis distances at most `1.1`. -/
def producerNear (l : List Entity) (ix iy : ℚ) : Option Entity :=
  l.find? (fun e =>
    (jsIncludes e.name "furnace" || jsIncludes e.name "assembling-machine")
    && decide (|e.position.x - ix| ≤ 11/10) && decide (|e.position.y - iy| ≤ 11/10))

/-- The composer's inserter direction repair: every inserter with an adjacent
furnace/assembler gets its direction overwritten to point at it (the loop has
no check that the direction was undefined). The in-place mutation only writes
inserter `direction` fields, which the producer search never reads, so it is
equivalent to this per-element map over the deduplicated list. -/
def repairInserters (l : List Entity) : List Entity :=
  l.map (fun ins =>
    if ins.name = "inserter" then
      match producerNear l ins.position.x ins.position.y with
      | some furn =>
          let dx := jsRound (furn.position.x - ins.position.x)
          let dy := jsRound (furn.position.y - ins.position.y)
          { ins with direction := some (vecToDirStep ⟨(dx : ℚ), (dy : ℚ)⟩ * 4) }
      | none => ins
    else ins)

/-- The composition pipeline up to and including the dedup loop (`none` when
the input unit is empty — the CLI exits with "No entities in input"). -/
def composeDedup (unit : List Entity) (p : Params) : Option (List Entity) :=
  if unit = [] then none
  else some (dedupByKey (outEntitiesOf unit p))

/-- The full composition: dedup followed by the inserter direction repair.
The subsequent steps of `main` (entity renumbering and pole wiring) do not
change the entity list's `(name, position, direction)` content. -/
def compose (unit : List Entity) (p : Params) : Option (List Entity) :=
  (composeDedup unit p).map repairInserters

end Compose

namespace Transform
/-! ## `scripts/transform-blueprint.ts` -/

/-- One step of this script's `rotatePos`: `(x, y) → (y, -x)`. -/
def rotStepT (p : Pos) : Pos := ⟨p.y, -p.x⟩

/-- `rotatePos(x, y, rot)` of the transform script (note: a different
single-step sign convention than the composer's). -/
def rotatePos (x y : ℚ) (rot : ℤ) : Pos :=
  rotStepT^[(jsAnd3 rot).toNat] ⟨x, y⟩

/-- One step of `rotatePosClockwise`: `(x, y) → (-y, x)`. -/
def rotStepCW (p : Pos) : Pos := ⟨-p.y, p.x⟩

/-- `rotatePosClockwise(x, y, rot)`. -/
def rotatePosClockwise (x y : ℚ) (rot : ℤ) : Pos :=
  rotStepCW^[(jsAnd3 rot).toNat] ⟨x, y⟩

/-- `flipEntity(ent, fx, fy)` of the transform script. -/
def flipEntity (ent : Entity) (fx fy : Bool) : Entity :=
  let x := if fx then -ent.position.x else ent.position.x
  let y := if fy then -ent.position.y else ent.position.y
  let dir := match ent.direction with
    | some d =>
        let vec := dirStepToVec (dirFieldToStep d)
        let vx := if fx then -vec.x else vec.x
        let vy := if fy then -vec.y else vec.y
        some (vecToDirStep ⟨(jsRound vx : ℚ), (jsRound vy : ℚ)⟩ * 4)
    | none => none
  { ent with position := ⟨x, y⟩, direction := dir }

/-- `rotateEntity(ent, rotSteps)` of the transform script — rotates the
position and direction with `rotatePosClockwise`. -/
def rotateEntity (ent : Entity) (rotSteps : ℤ) : Entity :=
  let rpos := rotatePosClockwise ent.position.x ent.position.y rotSteps
  let dir := match ent.direction with
    | some d =>
        let vec := dirStepToVec (dirFieldToStep d)
        let rvec := rotatePosClockwise vec.x vec.y rotSteps
        some (vecToDirStep ⟨(jsRound rvec.x : ℚ), (jsRound rvec.y : ℚ)⟩ * 4)
    | none => none
  { ent with position := rpos, direction := dir }

/-- `snapToHalf` of the transform script. -/
def snapToHalf (n : ℚ) : ℚ := (jsRound (n * 2) : ℚ) / 2

/-- The per-entity transform loop of `main`: optional flip, optional rotate
(skipped when the masked rotation is `0`, i.e. `if (rot)`), then snap. -/
def transformEntity (fx fy : Bool) (rotN : ℤ) (e : Entity) : Entity :=
  let rot := jsAnd3 rotN
  let cur := if fx || fy then flipEntity e fx fy else e
  let cur := if rot ≠ 0 then rotateEntity cur rot else cur
  { cur with position := ⟨snapToHalf cur.position.x, snapToHalf cur.position.y⟩ }

/-- The transform script's inserter direction inference: only inserters whose
`direction` is currently undefined (`typeof ins.direction === 'number'`
`continue`s on defined ones) and that have an adjacent furnace/assembler get
a direction. The in-place mutation writes only inserter `direction` fields,
which the producer search never reads, so it equals this per-element map. -/
def inferDirections (l : List Entity) : List Entity :=
  l.map (fun ins =>
    if ins.name = "inserter" ∧ ins.direction = none then
      match Compose.producerNear l ins.position.x ins.position.y with
      | some furn =>
          let dx := jsRound (furn.position.x - ins.position.x)
          let dy := jsRound (furn.position.y - ins.position.y)
          { ins with direction := some (vecToDirStep ⟨(dx : ℚ), (dy : ℚ)⟩ * 4) }
      | none => ins
    else ins)

/-- The whole transform pipeline of `main`. -/
def transformAll (fx fy : Bool) (rotN : ℤ) (l : List Entity) : List Entity :=
  inferDirections (l.map (transformEntity fx fy rotN))

end Transform

namespace Flow
/-! ## `scripts/blueprint-flow.ts` -/

/-- Flow-analyzer entity record: `{ name; position?; direction? }`. -/
structure FEntity where
  name : String
  position : Option Pos
  direction : Option ℤ
  deriving DecidableEq, Repr

/-- A `type → speed` table (`entity_speeds` / `belt_speeds`), modelled as an
association list; a JavaScript object has one entry per key. -/
abbrev SpeedTable := List (String × ℚ)

/-- Property lookup `table[name]` as an `Option`. -/
def lookupTable (t : SpeedTable) (n : String) : Option ℚ :=
  (t.find? (fun p => p.1 = n)).map (·.2)

/-- Truthiness of `beltSpeeds[e.name]` in the transport filter: present and
non-zero (`0` is falsy in JavaScript). -/
def truthySpeed (t : SpeedTable) (n : String) : Bool :=
  match lookupTable t n with
  | some s => decide (s ≠ 0)
  | none => false

/-- `entities.filter((e) => beltSpeeds[e.name])`. -/
def beltEntities (bS : SpeedTable) (es : List FEntity) : List FEntity :=
  es.filter (fun e => truthySpeed bS e.name)

/-- An integer grid cell — the `` `${x},${y}` `` position key. -/
abbrev Cell := ℤ × ℤ

/-- `Math.round(b.position?.x ?? 0)` on both axes. -/
def cellOf (e : FEntity) : Cell :=
  match e.position with
  | some p => (jsRound p.x, jsRound p.y)
  | none => (0, 0)

/-- The used fields of the `{ b, x, y }` record stored in `beltMap`. -/
structure Item where
  name : String
  x : ℤ
  y : ℤ
  d : Option ℤ
  deriving DecidableEq, Repr

/-- The `beltMap` value for one transport entity. -/
def itemOf (e : FEntity) : Item :=
  ⟨e.name, (cellOf e).1, (cellOf e).2, e.direction⟩

/-- JavaScript `Map.prototype.set`: replace the value in place when the key
is already present (keeping its insertion position), else append. -/
def mapSet {K V : Type} [DecidableEq K] (m : List (K × V)) (k : K) (v : V) :
    List (K × V) :=
  if m.any (fun p => p.1 = k) then m.map (fun p => if p.1 = k then (k, v) else p)
  else m ++ [(k, v)]

/-- JavaScript `Map.prototype.get` as an `Option` (first — and, for maps
built with `mapSet`, only — entry with the key). -/
def mapGet {K V : Type} [DecidableEq K] : List (K × V) → K → Option V
  | [], _ => none
  | p :: t, k => if p.1 = k then some p.2 else mapGet t k

/-- The `beltMap` built from an already-filtered transport entity list:
last write per grid cell wins. -/
def beltMapFrom (belts : List FEntity) : List (Cell × Item) :=
  belts.foldl (fun m b => mapSet m (cellOf b) (itemOf b)) []

/-- The `minX/maxX/minY/maxY` bounds loop over all transport entities
(including ones later overwritten in `beltMap`); `none` models the
`Infinity` seeds of an empty list. -/
def boundsOf (belts : List FEntity) : Option (ℤ × ℤ × ℤ × ℤ) :=
  belts.foldl
    (fun acc b =>
      let c := cellOf b
      match acc with
      | none => some (c.1, c.1, c.2, c.2)
      | some (mnX, mxX, mnY, mxY) =>
          some (min mnX c.1, max mxX c.1, min mnY c.2, max mxY c.2))
    none

/-- `find(a)`: follow parent pointers to the root. The source recurses and
path-compresses; compression only re-points visited nodes directly at the
root it returns, so the returned root is unchanged — modelled fuel-bounded
and compression-free (the parent map is a forest, so `parent.length` steps
always reach the root). -/
def findRoot (parent : List (Cell × Cell)) : ℕ → Cell → Cell
  | 0, a => a
  | fuel + 1, a =>
      let p := (mapGet parent a).getD a
      if p = a then a else findRoot parent fuel p

/-- `union(a, b)`: graft `b`'s root under `a`'s root. -/
def unionUF (parent : List (Cell × Cell)) (a b : Cell) : List (Cell × Cell) :=
  let ra := findRoot parent parent.length a
  let rb := findRoot parent parent.length b
  if ra = rb then parent else mapSet parent rb ra

/-- The union-find parent map after initializing every belt key to itself and
unioning all 4-neighbor-adjacent grid cells. -/
def parentOf (beltMap : List (Cell × Item)) : List (Cell × Cell) :=
  let init := beltMap.foldl (fun par kv => mapSet par kv.1 kv.1) []
  beltMap.foldl
    (fun par kv =>
      let x := kv.1.1
      let y := kv.1.2
      [((x + 1, y) : Cell), (x - 1, y), (x, y + 1), (x, y - 1)].foldl
        (fun par nk =>
          if beltMap.any (fun p => p.1 = nk) then unionUF par kv.1 nk else par)
        par)
    init

/-- Per-component accumulation record (`{ keys, items, xs, ys }`). -/
structure CompInfo where
  keys : List Cell
  items : List Item
  xs : List ℤ
  ys : List ℤ
  deriving DecidableEq, Repr

/-- `comps.set(root, info)` after pushing one member into the root's record. -/
def compsUpdate (comps : List (Cell × CompInfo)) (root : Cell) (k : Cell)
    (it : Item) : List (Cell × CompInfo) :=
  let info := (mapGet comps root).getD ⟨[], [], [], []⟩
  mapSet comps root
    ⟨info.keys ++ [k], info.items ++ [it], info.xs ++ [it.x], info.ys ++ [it.y]⟩

/-- Group the belt map's cells by their union-find root, in key order. -/
def compsOf (beltMap : List (Cell × Item)) : List (Cell × CompInfo) :=
  let parent := parentOf beltMap
  beltMap.foldl
    (fun comps kv =>
      compsUpdate comps (findRoot parent parent.length kv.1) kv.1 kv.2)
    []

/-- `Math.min(...)` over a non-empty list (the sole call sites pass non-empty
lane arrays; `0` stands in for the empty spread, which the source never hits). -/
def listMinQ : List ℚ → ℚ
  | [] => 0
  | a :: t => t.foldl min a

/-- `Math.max(...)` over a non-empty list. -/
def listMaxQ : List ℚ → ℚ
  | [] => 0
  | a :: t => t.foldl max a

/-- `Math.max(...xs) / Math.min(...xs)` over component coordinates. -/
def listMinZ : List ℤ → ℤ
  | [] => 0
  | a :: t => t.foldl min a

/-- `Math.max` over integers. -/
def listMaxZ : List ℤ → ℤ
  | [] => 0
  | a :: t => t.foldl max a

/-- Lane speed: `beltSpeeds[it.name] ?? (beltSpeeds['transport-belt'] || 15)`
(`??` keeps an explicit `0`; `||` replaces falsy `0` by `15`). -/
def laneSpeed (bS : SpeedTable) (n : String) : ℚ :=
  match lookupTable bS n with
  | some s => s
  | none =>
      match lookupTable bS "transport-belt" with
      | some s => if s = 0 then 15 else s
      | none => 15

/-- One element of `compList`: `{ id, size, cap, cx, cy }`. -/
structure Comp where
  id : ℕ
  size : ℕ
  cap : ℚ
  cx : ℚ
  cy : ℚ
  deriving DecidableEq, Repr

/-- The per-component computation of `compList`: dominant axis from summed
direction vectors (falling back to bounding-box spans), lane bucketing by the
non-dominant coordinate, lane capacity as lane minimum, component capacity as
the lane sum, centroid as coordinate means. -/
def compOf (bS : SpeedTable) (idx : ℕ) (c : CompInfo) : Comp :=
  let acc := c.items.foldl
    (fun (a : ℚ × ℚ × ℕ) it =>
      match it.d with
      | some dv =>
          let v := dirStepToVec (dirFieldToStep dv)
          (a.1 + v.x, a.2.1 + v.y, a.2.2 + 1)
      | none => a)
    (0, 0, 0)
  let sumDx := acc.1
  let sumDy := acc.2.1
  let dirCount := acc.2.2
  let spanX := listMaxZ c.xs - listMinZ c.xs
  let spanY := listMaxZ c.ys - listMinZ c.ys
  let horizontal :=
    if dirCount > 0 then decide (|sumDx| ≥ |sumDy|) else decide (spanX ≥ spanY)
  let laneMap := c.items.foldl
    (fun (lm : List (ℤ × List ℚ)) it =>
      let laneKey := if horizontal then it.y else it.x
      let arr := (mapGet lm laneKey).getD []
      mapSet lm laneKey (arr ++ [laneSpeed bS it.name]))
    []
  let compCap := laneMap.foldl (fun s kv => s + listMinQ kv.2) 0
  let cx := ((c.xs.foldl (· + ·) 0 : ℤ) : ℚ) / (c.xs.length : ℚ)
  let cy := ((c.ys.foldl (· + ·) 0 : ℤ) : ℚ) / (c.ys.length : ℚ)
  ⟨idx, c.keys.length, compCap, cx, cy⟩

/-- `compList` for an already-filtered transport entity list. -/
def compListFrom (bS : SpeedTable) (belts : List FEntity) : List Comp :=
  ((compsOf (beltMapFrom belts)).map (·.2)).enum.map (fun ic => compOf bS ic.1 ic.2)

/-- The strict-closest fold used for the output and input component picks:
start from `compList[0]`, replace only on a strictly smaller distance. -/
def pickClosest (target : ℚ) (l : List Comp) : Option Comp :=
  match l with
  | [] => none
  | h :: _ => some (l.foldl (fun best c =>
      if |c.cx - target| < |best.cx - target| then c else best) h)

/-- The belt-analysis half of the report, computed from the filtered
transport entities only. -/
structure BeltSide where
  comps : List Comp
  outputComponent : Option Comp
  inputLeft : Option Comp
  inputRight : Option Comp
  inputCap : ℚ
  outputCap : ℚ
  deriving DecidableEq, Repr

/-- `maxComponentCapacity`. -/
def maxCapOf (compList : List Comp) : ℚ :=
  match compList.map (·.cap) with
  | [] => 0
  | caps => listMaxQ caps

/-- `centerX = (minX + maxX) / 2`, `0` when the bounds stayed `Infinity`. -/
def centerXOf (belts : List FEntity) : ℚ :=
  match boundsOf belts with
  | some (mnX, mxX, _, _) => ((mnX : ℚ) + (mxX : ℚ)) / 2
  | none => 0

/-- The `minX` bound as a rational (only read when components exist, in
which case the bounds are finite). -/
def minXQOf (belts : List FEntity) : ℚ :=
  match boundsOf belts with
  | some (mnX, _, _, _) => (mnX : ℚ)
  | none => 0

/-- The `maxX` bound as a rational. -/
def maxXQOf (belts : List FEntity) : ℚ :=
  match boundsOf belts with
  | some (_, mxX, _, _) => (mxX : ℚ)
  | none => 0

/-- `outputComponent`: centroid x closest to `centerX`. -/
def outputComponentOf (bS : SpeedTable) (belts : List FEntity) : Option Comp :=
  pickClosest (centerXOf belts) (compListFrom bS belts)

/-- `inputLeft`: centroid x closest to `minX`. -/
def inputLeftOf (bS : SpeedTable) (belts : List FEntity) : Option Comp :=
  pickClosest (minXQOf belts) (compListFrom bS belts)

/-- `inputRight`: centroid x closest to `maxX`. -/
def inputRightOf (bS : SpeedTable) (belts : List FEntity) : Option Comp :=
  pickClosest (maxXQOf belts) (compListFrom bS belts)

/-- `inputCapacityPerSec` (`inputRight === inputLeft` compares object
identity; components are identified by their unique `id` index). -/
def inputCapOf (bS : SpeedTable) (belts : List FEntity) : ℚ :=
  (match inputLeftOf bS belts with | some l => l.cap | none => 0) +
  (match inputRightOf bS belts with
   | some r =>
       match inputLeftOf bS belts with
       | some l => if r.id = l.id then 0 else r.cap
       | none => r.cap
   | none => 0)

/-- `outputCapacityPerSec`: the output component's capacity, or the maximum
component capacity (0 with no components) when undefined. -/
def outputCapOf (bS : SpeedTable) (belts : List FEntity) : ℚ :=
  match outputComponentOf bS belts with
  | some c => c.cap
  | none => maxCapOf (compListFrom bS belts)

/-- The belt-component analysis: components, centroid-heuristic
classification, and the aggregated input/output capacities. -/
def beltAnalysis (bS : SpeedTable) (belts : List FEntity) : BeltSide :=
  ⟨compListFrom bS belts, outputComponentOf bS belts, inputLeftOf bS belts,
    inputRightOf bS belts, inputCapOf bS belts, outputCapOf bS belts⟩

/-- `computeThroughput(...).totalPerSec`: iterate the `entity_speeds` table,
count matching entities, and sum `count * speed / recipeTimeSec`. -/
def totalPerSec (es : List FEntity) (speeds : SpeedTable) (recipeTime : ℚ) : ℚ :=
  speeds.foldl
    (fun tot p =>
      let count := es.countP (fun e => e.name = p.1)
      if count ≤ 0 then tot else tot + ((count : ℚ) * p.2) / recipeTime)
    0

/-- The flow report fields the claims are about. -/
structure Report where
  compCount : ℕ
  comps : List Comp
  outputComponent : Option Comp
  inputLeft : Option Comp
  inputRight : Option Comp
  inputCap : ℚ
  outputCap : ℚ
  total : ℚ
  bottleneck : Bool
  deriving DecidableEq, Repr

/-- The flow analyzer: `belt_bottleneck = throughput.totalPerSec >= outputCapacityPerSec`. -/
def flowReport (es : List FEntity) (speeds bS : SpeedTable) (recipeTime : ℚ) :
    Report :=
  let side := beltAnalysis bS (beltEntities bS es)
  let tot := totalPerSec es speeds recipeTime
  ⟨side.comps.length, side.comps, side.outputComponent, side.inputLeft,
    side.inputRight, side.inputCap, side.outputCap, tot,
    decide (tot ≥ side.outputCap)⟩

/-- The default `belt_speeds` table used when the recipes DB has none. -/
def defaultBeltSpeeds : SpeedTable :=
  [("transport-belt", 15), ("fast-transport-belt", 30), ("express-transport-belt", 45)]

end Flow

/-! ## Property-side definitions used to state the claims -/

/-- `q` is a half-tile coordinate: `2q` is an integer. -/
def isHalf (q : ℚ) : Prop := (2 * q).den = 1

instance (q : ℚ) : Decidable (isHalf q) := by unfold isHalf; infer_instance

/-- A wellformed entity of the data model: half-tile coordinates and a
direction that is absent or a canonical multiple of four in `0..12`
(the encoding of an orientation in `0..3`). -/
def WFe (e : Entity) : Prop :=
  isHalf e.position.x ∧ isHalf e.position.y ∧
    (e.direction = none ∨ e.direction = some 0 ∨ e.direction = some 4 ∨
     e.direction = some 8 ∨ e.direction = some 12)

instance (e : Entity) : Decidable (WFe e) := by unfold WFe; infer_instance

/-- Horizontal translation of an entity by `t` tiles. -/
def translateX (t : ℤ) (e : Entity) : Entity :=
  { e with position := ⟨e.position.x + (t : ℚ), e.position.y⟩ }

/-- Translation of a dedup key by `t` tiles along x. -/
def shiftKeyX (t : ℤ) (k : String × ℚ × ℚ × Option ℤ) :
    String × ℚ × ℚ × Option ℤ :=
  (k.1, k.2.1 + (t : ℚ), k.2.2.1, k.2.2.2)

/-- Translation of a dedup key by `(a, b)`. -/
def shiftKey2 (a b : ℚ) (k : String × ℚ × ℚ × Option ℤ) :
    String × ℚ × ℚ × Option ℤ :=
  (k.1, k.2.1 + a, k.2.2.1 + b, k.2.2.2)

/-- The composition parameters of the edge-sharing count law: one row, two
columns, `shareX`, identity base transform, no per-row overrides. -/
def paramsRow (sX sY : ℚ) (shY nrm : Bool) : Compose.Params :=
  { rows := 1, cols := 2, spacingX := sX, spacingY := sY, rot := 0,
    flipX := false, flipY := false, normalize := nrm, shareX := true,
    shareY := shY, rotateBottom := false, flipRows := [], rotateRows := [] }

/-- The number of unit entities identical (by the dedup key) to an entity of
the same unit shifted one tile-step to the left — the `k` shared-edge
entities of the edge-sharing count law. -/
def kCount (U : List Entity) (s : ℤ) : ℕ :=
  (U.filter (fun e => decide (Compose.entityKey (translateX s e) ∈ U.map Compose.entityKey))).length

/-- The orientation half of the composer's `rotateEntity`, as a function of
the direction step: vector out, rotate, vector back. -/
def rotateDirStep (s rot : ℤ) : ℤ :=
  let vec := dirStepToVec s
  let rvec := Compose.rotatePos vec.x vec.y rot
  vecToDirStep ⟨(jsRound rvec.x : ℚ), (jsRound rvec.y : ℚ)⟩

/-- A dedup-key duplicate-free entity list. -/
def dupKeyFree (l : List Entity) : Prop := (l.map Compose.entityKey).Nodup

instance (l : List Entity) : Decidable (dupKeyFree l) := by
  unfold dupKeyFree; infer_instance

/-- The item of the last transport entity in input order rounding to cell
`c` (`none` when no transport entity occupies `c`): a later entity of the
list wins over every earlier one. -/
def lastItemAt : List Flow.FEntity → Flow.Cell → Option Flow.Item
  | [], _ => none
  | e :: t, c =>
      match lastItemAt t c with
      | some it => some it
      | none => if Flow.cellOf e = c then some (Flow.itemOf e) else none

namespace FlowV2
/-! ## The revised flow analyzer of `src/unnamed/part_014`

A later revision of `scripts/blueprint-flow.ts` (found in
`src/unnamed/part_014`) keeps the belt-map / union-find / per-component
pipeline verbatim but adds an inserter-adjacency scan before the centroid
heuristics: it builds a furnace map over the exact names
`stone-furnace` / `steel-furnace` / `electric-furnace`, walks every directed
inserter computing its pickup (position − direction vector) and drop
(position + direction vector) grid cells, collects the roots of belt
components feeding furnaces (`inputCompRoots`) and fed by furnaces
(`outputCompRoots`), and prefers those over the centroid picks. The shared
pipeline is reused from the `Flow` namespace; only this revision's
additions are embedded here. -/

/-- The `dirStepToVec` switch viewed over integers, as the scan uses the
vector components in integer grid keys. -/
def dirStepToVecZ (step : ℤ) : ℤ × ℤ :=
  if jsAnd3 step = 0 then (0, -1)
  else if jsAnd3 step = 1 then (1, 0)
  else if jsAnd3 step = 2 then (0, 1)
  else (-1, 0)

/-- `Map.prototype.has`. -/
def hasCell {V : Type} (m : List (Flow.Cell × V)) (c : Flow.Cell) : Bool :=
  m.any (fun p => p.1 = c)

/-- `new Set([...])`'s insertion-ordered `add`. -/
def setAdd (s : List Flow.Cell) (c : Flow.Cell) : List Flow.Cell :=
  if c ∈ s then s else s ++ [c]

/-- `const furnaceNames = new Set(['stone-furnace', 'steel-furnace',
'electric-furnace'])`. -/
def furnaceNames : List String := ["stone-furnace", "steel-furnace", "electric-furnace"]

/-- The furnace position map, keyed by rounded grid cell over all entities. -/
def furnaceMapOf (es : List Flow.FEntity) : List (Flow.Cell × Flow.FEntity) :=
  es.foldl
    (fun m e => if furnaceNames.contains e.name then Flow.mapSet m (Flow.cellOf e) e else m)
    []

/-- The inserter's pickup grid cell: rounded position minus the direction
vector. -/
def pickupCellOf (ins : Flow.FEntity) (d : ℤ) : Flow.Cell :=
  ((Flow.cellOf ins).1 - (dirStepToVecZ (dirFieldToStep d)).1,
   (Flow.cellOf ins).2 - (dirStepToVecZ (dirFieldToStep d)).2)

/-- The inserter's drop grid cell: rounded position plus the direction
vector. -/
def dropCellOf (ins : Flow.FEntity) (d : ℤ) : Flow.Cell :=
  ((Flow.cellOf ins).1 + (dirStepToVecZ (dirFieldToStep d)).1,
   (Flow.cellOf ins).2 + (dirStepToVecZ (dirFieldToStep d)).2)

/-- One iteration of the inserter-adjacency loop: skip undirected inserters,
add the pickup-side belt root to the input set when the inserter moves
belt → furnace, the drop-side belt root to the output set when it moves
furnace → belt. -/
def scanStep (bm : List (Flow.Cell × Flow.Item)) (fm : List (Flow.Cell × Flow.FEntity))
    (par : List (Flow.Cell × Flow.Cell))
    (acc : List Flow.Cell × List Flow.Cell) (ins : Flow.FEntity) :
    List Flow.Cell × List Flow.Cell :=
  match ins.direction with
  | none => acc
  | some d =>
      if hasCell bm (pickupCellOf ins d) && hasCell fm (dropCellOf ins d) then
        (setAdd acc.1 (Flow.findRoot par par.length (pickupCellOf ins d)), acc.2)
      else if hasCell fm (pickupCellOf ins d) && hasCell bm (dropCellOf ins d) then
        (acc.1, setAdd acc.2 (Flow.findRoot par par.length (dropCellOf ins d)))
      else acc

/-- `inputCompRoots` and `outputCompRoots` after the inserter loop. -/
def scanRootsOf (es : List Flow.FEntity) (bS : Flow.SpeedTable) :
    List Flow.Cell × List Flow.Cell :=
  (es.filter (fun e => e.name = "inserter")).foldl
    (scanStep (Flow.beltMapFrom (Flow.beltEntities bS es)) (furnaceMapOf es)
      (Flow.parentOf (Flow.beltMapFrom (Flow.beltEntities bS es))))
    ([], [])

/-- The supply (`inputCompRoots`) side of the scan. -/
def inputRootsOf (es : List Flow.FEntity) (bS : Flow.SpeedTable) : List Flow.Cell :=
  (scanRootsOf es bS).1

/-- The drain (`outputCompRoots`) side of the scan. -/
def outputRootsOf (es : List Flow.FEntity) (bS : Flow.SpeedTable) : List Flow.Cell :=
  (scanRootsOf es bS).2

/-- `compList` element of this revision: `{ id, root, size, cap, cx, cy }`
(it also records the component's union-find root for scan matching). -/
structure CompR where
  id : ℕ
  root : Flow.Cell
  size : ℕ
  cap : ℚ
  cx : ℚ
  cy : ℚ
  deriving DecidableEq, Repr

/-- `compList` from `Array.from(comps.entries()).map(([root, c], idx) => ...)`;
the per-component numbers are the shared pipeline's. -/
def compListR (bS : Flow.SpeedTable) (belts : List Flow.FEntity) : List CompR :=
  (Flow.compsOf (Flow.beltMapFrom belts)).enum.map
    (fun ic => ⟨ic.1, ic.2.1, (Flow.compOf bS ic.1 ic.2.2).size,
      (Flow.compOf bS ic.1 ic.2.2).cap, (Flow.compOf bS ic.1 ic.2.2).cx,
      (Flow.compOf bS ic.1 ic.2.2).cy⟩)

/-- The strict-closest fold of this revision's centroid fallbacks. -/
def pickClosestR (t : ℚ) (l : List CompR) : Option CompR :=
  match l with
  | [] => none
  | h :: _ => some (l.foldl (fun best c =>
      if |c.cx - t| < |best.cx - t| then c else best) h)

/-- `outputComponent`: the component of the first scanned output root when
one exists (staying undefined if no component carries that root), otherwise
the centroid-closest component. -/
def outputComponentV2 (es : List Flow.FEntity) (bS : Flow.SpeedTable) : Option CompR :=
  match outputRootsOf es bS with
  | r :: _ => (compListR bS (Flow.beltEntities bS es)).find? (fun c => c.root = r)
  | [] => pickClosestR (Flow.centerXOf (Flow.beltEntities bS es))
      (compListR bS (Flow.beltEntities bS es))

/-- `inputCapacityPerSec`: the capacity sum of the scanned input components
when any exist, otherwise the leftmost/rightmost centroid fallback. -/
def inputCapV2 (es : List Flow.FEntity) (bS : Flow.SpeedTable) : ℚ :=
  match inputRootsOf es bS with
  | r :: rs =>
      (r :: rs).foldl
        (fun s root =>
          match (compListR bS (Flow.beltEntities bS es)).find? (fun c => c.root = root) with
          | some c => s + c.cap
          | none => s) 0
  | [] =>
      match pickClosestR (Flow.minXQOf (Flow.beltEntities bS es))
              (compListR bS (Flow.beltEntities bS es)),
            pickClosestR (Flow.maxXQOf (Flow.beltEntities bS es))
              (compListR bS (Flow.beltEntities bS es)) with
      | some l, some r => l.cap + (if r = l then 0 else r.cap)
      | _, _ => 0

/-- The loop-body condition under which one inserter adds root `r` to the
input (supply) set: directed, pickup on a belt cell, drop on a furnace cell,
`r` the pickup cell's component root. -/
def stepDetectsInput (bm : List (Flow.Cell × Flow.Item))
    (fm : List (Flow.Cell × Flow.FEntity)) (par : List (Flow.Cell × Flow.Cell))
    (ins : Flow.FEntity) (r : Flow.Cell) : Bool :=
  match ins.direction with
  | none => false
  | some d =>
      (hasCell bm (pickupCellOf ins d) && hasCell fm (dropCellOf ins d))
        && decide (r = Flow.findRoot par par.length (pickupCellOf ins d))

/-- The loop-body condition under which one inserter adds root `r` to the
output (drain) set: directed, not a belt→furnace move, pickup on a furnace
cell and drop on a belt cell, `r` the drop cell's component root. -/
def stepDetectsOutput (bm : List (Flow.Cell × Flow.Item))
    (fm : List (Flow.Cell × Flow.FEntity)) (par : List (Flow.Cell × Flow.Cell))
    (ins : Flow.FEntity) (r : Flow.Cell) : Bool :=
  match ins.direction with
  | none => false
  | some d =>
      (!(hasCell bm (pickupCellOf ins d) && hasCell fm (dropCellOf ins d))
        && (hasCell fm (pickupCellOf ins d) && hasCell bm (dropCellOf ins d)))
        && decide (r = Flow.findRoot par par.length (dropCellOf ins d))

end FlowV2

/-! ## Concrete inputs for witnesses and counterexamples -/

/-- Two stacked inserters (legal distinct tuples: directions differ) next to
a furnace. -/
def unitTwoIns : List Entity :=
  [⟨"inserter", ⟨0, 0⟩, some 0⟩, ⟨"inserter", ⟨0, 0⟩, some 4⟩,
   ⟨"stone-furnace", ⟨1, 0⟩, none⟩]

/-- Identity composition parameters (one cell, no normalization). -/
def paramsIdent : Compose.Params := { normalize := false }

/-- The two-inserter unit with its first two entities swapped. -/
def unitTwoInsSwapped : List Entity :=
  [⟨"inserter", ⟨0, 0⟩, some 4⟩, ⟨"inserter", ⟨0, 0⟩, some 0⟩,
   ⟨"stone-furnace", ⟨1, 0⟩, none⟩]

/-- A three-belt line whose trailing edge coincides with the next tile's
leading edge under `shareX`. -/
def unitBelt3 : List Entity :=
  [⟨"transport-belt", ⟨1/2, 1/2⟩, none⟩, ⟨"transport-belt", ⟨3/2, 1/2⟩, none⟩,
   ⟨"transport-belt", ⟨5/2, 1/2⟩, none⟩]

/-- `1×2`, `shareX`, zero horizontal spacing. -/
def paramsShare : Compose.Params :=
  { rows := 1, cols := 2, spacingX := 0, shareX := true }

/-- An inserter that already has a defined direction (north), with an
adjacent furnace to its east. -/
def insAndFurnace : List Entity :=
  [⟨"inserter", ⟨0, 0⟩, some 0⟩, ⟨"stone-furnace", ⟨1, 0⟩, none⟩]

/-- A fast belt and a slow belt on the same grid cell. -/
def fastThenSlow : List Flow.FEntity :=
  [⟨"fast-transport-belt", some ⟨0, 0⟩, none⟩, ⟨"transport-belt", some ⟨0, 0⟩, none⟩]

/-- The same two belts in the opposite order. -/
def slowThenFast : List Flow.FEntity :=
  [⟨"transport-belt", some ⟨0, 0⟩, none⟩, ⟨"fast-transport-belt", some ⟨0, 0⟩, none⟩]

/-- One belt feeding a furnace through an east-pointing inserter: the scan
marks the belt component a supply (input) and marks no drain. -/
def beltInsFurnace : List Flow.FEntity :=
  [⟨"transport-belt", some ⟨0, 0⟩, none⟩, ⟨"inserter", some ⟨1, 0⟩, some 4⟩,
   ⟨"stone-furnace", some ⟨2, 0⟩, none⟩]

/-- One belt fed by a furnace through a west-pointing inserter: the scan
marks the belt component a drain (output). -/
def beltInsFurnaceW : List Flow.FEntity :=
  [⟨"transport-belt", some ⟨0, 0⟩, none⟩, ⟨"inserter", some ⟨1, 0⟩, some 12⟩,
   ⟨"stone-furnace", some ⟨2, 0⟩, none⟩]

/-- A single furnace-like entity — not a transport entity. -/
def furnaceOnly : List Flow.FEntity := [⟨"stone-furnace", some ⟨0, 0⟩, none⟩]

/-- A single belt whose component has capacity 90 under a custom speed table. -/
def belt90 : List Flow.FEntity := [⟨"belt90", some ⟨0, 0⟩, none⟩, ⟨"maker", none, none⟩]

/-- The speed table giving `belt90` capacity 90. -/
def table90 : Flow.SpeedTable := [("belt90", 90)]

/-- A single transport belt. -/
def beltOnly : List Flow.FEntity := [⟨"transport-belt", some ⟨0, 0⟩, none⟩]

/-- Non-transport extras: a furnace and a directed inserter. -/
def nonTransportExtras : List Flow.FEntity :=
  [⟨"stone-furnace", some ⟨2, 0⟩, none⟩, ⟨"inserter", some ⟨1, 0⟩, some 4⟩]

/-- An entity with an out-of-range orientation value (direction `16`,
i.e. orientation step `4`). -/
def entDir16 : Entity := ⟨"transport-belt", ⟨0, 0⟩, some 16⟩

/-- The same entity with the in-range orientation `0`. -/
def entDir0 : Entity := ⟨"transport-belt", ⟨0, 0⟩, some 0⟩

/-! ## Helper lemmas -/

theorem jsAnd3_four : jsAnd3 4 = 0 := by decide

theorem rotStep_four (p : Pos) :
    Compose.rotStep (Compose.rotStep (Compose.rotStep (Compose.rotStep p))) = p := by
  simp [Compose.rotStep]

theorem rotStepCW_four (p : Pos) :
    Transform.rotStepCW (Transform.rotStepCW (Transform.rotStepCW (Transform.rotStepCW p))) = p := by
  simp [Transform.rotStepCW]

theorem rotatePos_four (x y : ℚ) : Compose.rotatePos x y 4 = ⟨x, y⟩ := by
  simp [Compose.rotatePos, jsAnd3_four]

theorem rotatePosCW_four (x y : ℚ) : Transform.rotatePosClockwise x y 4 = ⟨x, y⟩ := by
  simp [Transform.rotatePosClockwise, jsAnd3_four]

theorem rotatePos_one_three (x y : ℚ) :
    (Compose.rotatePos (Compose.rotatePos x y 1).x (Compose.rotatePos x y 1).y 3)
      = ⟨x, y⟩ := by
  have h1 : jsAnd3 1 = 1 := by decide
  have h3 : jsAnd3 3 = 3 := by decide
  simp only [Compose.rotatePos, h1, h3]
  show Compose.rotStep (Compose.rotStep (Compose.rotStep (Compose.rotStep ⟨x, y⟩))) = _
  exact rotStep_four _

theorem rotatePosCW_one_three (x y : ℚ) :
    (Transform.rotatePosClockwise (Transform.rotatePosClockwise x y 1).x
      (Transform.rotatePosClockwise x y 1).y 3) = ⟨x, y⟩ := by
  have h1 : jsAnd3 1 = 1 := by decide
  have h3 : jsAnd3 3 = 3 := by decide
  simp only [Transform.rotatePosClockwise, h1, h3]
  show Transform.rotStepCW (Transform.rotStepCW (Transform.rotStepCW (Transform.rotStepCW ⟨x, y⟩))) = _
  exact rotStepCW_four _

/-- Orientation steps wrap by 16 in the `direction` field. -/
theorem dirFieldToStep_add_16 (d : ℤ) : dirFieldToStep (d + 16) = dirFieldToStep d := by
  unfold dirFieldToStep jsAnd3 jsFloorDiv4
  have h4 : (0 : ℤ) ≤ 4 := by norm_num
  rw [Int.fdiv_eq_ediv _ h4, Int.fdiv_eq_ediv _ h4]
  change (d + 16) / 4 % 4 = d / 4 % 4
  omega

/-! ## C9 — rotation closure -/

/-- C9: rotating a point by 4 clockwise 90° steps is the identity, rotating
by 1 then 3 steps is the identity (for both scripts' rotation functions),
and rotating each orientation step 0..3 by 4 steps returns it unchanged. -/
theorem C9_rotation_closure :
    (∀ x y : ℚ, Compose.rotatePos x y 4 = ⟨x, y⟩) ∧
    (∀ x y : ℚ,
      Compose.rotatePos (Compose.rotatePos x y 1).x (Compose.rotatePos x y 1).y 3
        = ⟨x, y⟩) ∧
    (∀ x y : ℚ, Transform.rotatePosClockwise x y 4 = ⟨x, y⟩) ∧
    (∀ x y : ℚ,
      Transform.rotatePosClockwise (Transform.rotatePosClockwise x y 1).x
        (Transform.rotatePosClockwise x y 1).y 3 = ⟨x, y⟩) ∧
    (rotateDirStep 0 4 = 0 ∧ rotateDirStep 1 4 = 1 ∧
      rotateDirStep 2 4 = 2 ∧ rotateDirStep 3 4 = 3) :=
  ⟨rotatePos_four, rotatePos_one_three, rotatePosCW_four, rotatePosCW_one_three,
    of_decide_eq_true (by with_unfolding_all rfl),
    of_decide_eq_true (by with_unfolding_all rfl),
    of_decide_eq_true (by with_unfolding_all rfl),
    of_decide_eq_true (by with_unfolding_all rfl)⟩

/-! ## C8 — out-of-range orientations -/

/-- C8 counterexample: an orientation step of 4 (direction value 16) is not
rejected — the transform silently treats it exactly like orientation 0. -/
theorem C8_counterexample :
    Compose.applyTransform entDir16 false false 1 0 0
      = Compose.applyTransform entDir0 false false 1 0 0
    ∧ (Compose.applyTransform entDir16 false false 1 0 0).direction = some 4 :=
  of_decide_eq_true (by with_unfolding_all rfl)

/-- C8 amended: an out-of-range orientation value is silently wrapped modulo
four steps (the `& 3` masking after `Math.floor(direction / 4)`): every
transform maps direction `d + 16` exactly as it maps `d`, and no validation
error exists anywhere in these code paths (the functions are total). -/
theorem C8_amended :
    ∀ (e : Entity) (fx fy : Bool) (rot : ℤ) (tx ty : ℚ) (d : ℤ),
      Compose.applyTransform { e with direction := some (d + 16) } fx fy rot tx ty
        = Compose.applyTransform { e with direction := some d } fx fy rot tx ty
      ∧ Transform.flipEntity { e with direction := some (d + 16) } fx fy
          = Transform.flipEntity { e with direction := some d } fx fy
      ∧ Transform.rotateEntity { e with direction := some (d + 16) } rot
          = Transform.rotateEntity { e with direction := some d } rot := by
  intro e fx fy rot tx ty d
  refine ⟨?_, ?_, ?_⟩ <;>
    simp [Compose.applyTransform, Compose.flipEntity, Compose.rotateEntity,
      Transform.flipEntity, Transform.rotateEntity, dirFieldToStep_add_16]

/-! ## C5 — flow analyzer on a collection with no transport entities -/

theorem compListFrom_nil (bS : Flow.SpeedTable) : Flow.compListFrom bS [] = [] := by
  simp [Flow.compListFrom, Flow.beltMapFrom, Flow.compsOf, Flow.parentOf]

theorem beltAnalysis_nil (bS : Flow.SpeedTable) :
    Flow.beltAnalysis bS [] = ⟨[], none, none, none, 0, 0⟩ := by
  simp [Flow.beltAnalysis, Flow.outputComponentOf, Flow.inputLeftOf,
    Flow.inputRightOf, Flow.inputCapOf, Flow.outputCapOf, compListFrom_nil,
    Flow.pickClosest, Flow.maxCapOf]

/-- C5 counterexample: with zero transport entities the report does have zero
components, but the bottleneck flag is `true`, not `false` — the comparison
`totalPerSec >= outputCapacityPerSec` is `0 >= 0` there. -/
theorem C5_counterexample :
    (Flow.flowReport [] [] Flow.defaultBeltSpeeds 1).compCount = 0
    ∧ (Flow.flowReport [] [] Flow.defaultBeltSpeeds 1).bottleneck = true :=
  of_decide_eq_true (by with_unfolding_all rfl)

/-- C5 amended: with zero transport entities the report has zero components,
and the bottleneck flag equals `requiredThroughput ≥ 0` (so it is `true`, not
`false`, whenever the required throughput is non-negative — in particular
for an empty collection). -/
theorem C5_amended :
    ∀ (es : List Flow.FEntity) (speeds bS : Flow.SpeedTable) (rt : ℚ),
      Flow.beltEntities bS es = [] →
      (Flow.flowReport es speeds bS rt).compCount = 0
      ∧ (Flow.flowReport es speeds bS rt).comps = []
      ∧ (Flow.flowReport es speeds bS rt).bottleneck
          = decide (Flow.totalPerSec es speeds rt ≥ 0) := by
  intro es speeds bS rt h
  unfold Flow.flowReport
  rw [h, beltAnalysis_nil]
  exact ⟨rfl, rfl, rfl⟩

/-- C5 amended, witnessed: a collection holding only a furnace (no transport
entity) yields zero components and `bottleneck = (90 ≥ 0) = true`. -/
theorem C5_amended_witness :
    (Flow.flowReport furnaceOnly [("stone-furnace", 90)] Flow.defaultBeltSpeeds 1).compCount = 0
    ∧ (Flow.flowReport furnaceOnly [("stone-furnace", 90)] Flow.defaultBeltSpeeds 1).comps = []
    ∧ (Flow.flowReport furnaceOnly [("stone-furnace", 90)] Flow.defaultBeltSpeeds 1).bottleneck
        = decide (Flow.totalPerSec furnaceOnly [("stone-furnace", 90)] 1 ≥ 0) :=
  C5_amended furnaceOnly [("stone-furnace", 90)] Flow.defaultBeltSpeeds 1
    (of_decide_eq_true (by with_unfolding_all rfl))

/-! ## C7 — order independence -/

/-- C7 counterexample: permuting two transport entities that share a rounded
grid cell changes the flow report's component capacities (`beltMap` is
last-wins), so flow analysis is not order-independent. -/
theorem C7_counterexample :
    fastThenSlow.Perm slowThenFast
    ∧ (Flow.flowReport fastThenSlow [] Flow.defaultBeltSpeeds 1).comps.map (·.cap) = [15]
    ∧ (Flow.flowReport slowThenFast [] Flow.defaultBeltSpeeds 1).comps.map (·.cap) = [30] :=
  of_decide_eq_true (by with_unfolding_all rfl)

/-! ## C1 — dedup postcondition on the final collection -/

/-- C1 counterexample: the direction repair pass that runs after dedup can
reintroduce duplicate `(type, position, orientation)` tuples — two co-located
inserters with distinct directions both get rewritten to point at the same
adjacent furnace, so the final returned collection has a duplicate tuple. -/
theorem C1_counterexample :
    (Compose.compose unitTwoIns paramsIdent).map (fun l => decide (dupKeyFree l))
      = some false :=
  of_decide_eq_true (by with_unfolding_all rfl)

/-! ## C2 — which entities the repair passes touch -/

/-- C2 counterexample: the composer's repair pass overwrites an inserter
orientation that was already defined (north) with the direction of the
adjacent furnace (east) — it does not restrict itself to undefined
orientations. -/
theorem C2_counterexample :
    insAndFurnace.map (·.direction) = [some 0, none]
    ∧ (Compose.repairInserters insAndFurnace).map (·.direction) = [some 4, none] :=
  of_decide_eq_true (by with_unfolding_all rfl)

/-! ## C6 — supply/drain classification (revised flow analyzer, part_014) -/

theorem setAdd_mem (s : List Flow.Cell) (c r : Flow.Cell) :
    r ∈ FlowV2.setAdd s c ↔ r ∈ s ∨ r = c := by
  unfold FlowV2.setAdd
  by_cases h : c ∈ s
  · rw [if_pos h]
    constructor
    · exact Or.inl
    · rintro (hr | rfl)
      exacts [hr, h]
  · rw [if_neg h]
    simp

/-- One scan iteration adds exactly the roots its loop-body conditions
demand. -/
theorem scanStep_mem (bm : List (Flow.Cell × Flow.Item))
    (fm : List (Flow.Cell × Flow.FEntity)) (par : List (Flow.Cell × Flow.Cell))
    (acc : List Flow.Cell × List Flow.Cell) (ins : Flow.FEntity) (r : Flow.Cell) :
    (r ∈ (FlowV2.scanStep bm fm par acc ins).1
      ↔ r ∈ acc.1 ∨ FlowV2.stepDetectsInput bm fm par ins r = true)
    ∧ (r ∈ (FlowV2.scanStep bm fm par acc ins).2
      ↔ r ∈ acc.2 ∨ FlowV2.stepDetectsOutput bm fm par ins r = true) := by
  unfold FlowV2.scanStep FlowV2.stepDetectsInput FlowV2.stepDetectsOutput
  cases hd : ins.direction with
  | none => simp
  | some d =>
      simp only []
      by_cases h1 : (FlowV2.hasCell bm (FlowV2.pickupCellOf ins d)
          && FlowV2.hasCell fm (FlowV2.dropCellOf ins d)) = true
      · rw [if_pos h1]
        constructor
        · rw [setAdd_mem]
          simp [h1]
        · simp [h1]
      · rw [if_neg h1]
        by_cases h2 : (FlowV2.hasCell fm (FlowV2.pickupCellOf ins d)
            && FlowV2.hasCell bm (FlowV2.dropCellOf ins d)) = true
        · rw [if_pos h2]
          constructor
          · simp [h1]
          · rw [setAdd_mem]
            simp [h1, h2]
        · rw [if_neg h2]
          simp [h1, h2]

/-- The inserter-adjacency fold collects exactly the roots detected by some
inserter of the list. -/
theorem scanFold_mem (bm : List (Flow.Cell × Flow.Item))
    (fm : List (Flow.Cell × Flow.FEntity)) (par : List (Flow.Cell × Flow.Cell)) :
    ∀ (l : List Flow.FEntity) (acc : List Flow.Cell × List Flow.Cell) (r : Flow.Cell),
      (r ∈ (l.foldl (FlowV2.scanStep bm fm par) acc).1
        ↔ r ∈ acc.1 ∨ ∃ ins ∈ l, FlowV2.stepDetectsInput bm fm par ins r = true)
      ∧ (r ∈ (l.foldl (FlowV2.scanStep bm fm par) acc).2
        ↔ r ∈ acc.2 ∨ ∃ ins ∈ l, FlowV2.stepDetectsOutput bm fm par ins r = true) := by
  intro l
  induction l with
  | nil => intro acc r; simp
  | cons ins t ih =>
      intro acc r
      rw [List.foldl_cons]
      obtain ⟨ih1, ih2⟩ := ih (FlowV2.scanStep bm fm par acc ins) r
      obtain ⟨hs1, hs2⟩ := scanStep_mem bm fm par acc ins r
      constructor
      · rw [ih1, hs1]
        constructor
        · rintro ((h | h) | ⟨i, hi, hdet⟩)
          exacts [Or.inl h, Or.inr ⟨ins, List.mem_cons_self _ _, h⟩,
            Or.inr ⟨i, List.mem_cons_of_mem _ hi, hdet⟩]
        · rintro (h | ⟨i, hi, hdet⟩)
          · exact Or.inl (Or.inl h)
          · rcases List.mem_cons.mp hi with rfl | hi'
            · exact Or.inl (Or.inr hdet)
            · exact Or.inr ⟨i, hi', hdet⟩
      · rw [ih2, hs2]
        constructor
        · rintro ((h | h) | ⟨i, hi, hdet⟩)
          exacts [Or.inl h, Or.inr ⟨ins, List.mem_cons_self _ _, h⟩,
            Or.inr ⟨i, List.mem_cons_of_mem _ hi, hdet⟩]
        · rintro (h | ⟨i, hi, hdet⟩)
          · exact Or.inl (Or.inl h)
          · rcases List.mem_cons.mp hi with rfl | hi'
            · exact Or.inl (Or.inr hdet)
            · exact Or.inr ⟨i, hi', hdet⟩

/-- The strict-closest fold over revision components returns a closest
element of the candidate set. -/
theorem pickR_foldl_spec (t : ℚ) :
    ∀ (l : List FlowV2.CompR) (b : FlowV2.CompR),
      (l.foldl (fun best c => if |c.cx - t| < |best.cx - t| then c else best) b = b
        ∨ l.foldl (fun best c => if |c.cx - t| < |best.cx - t| then c else best) b ∈ l)
      ∧ |(l.foldl (fun best c => if |c.cx - t| < |best.cx - t| then c else best) b).cx - t|
          ≤ |b.cx - t|
      ∧ ∀ x ∈ l,
          |(l.foldl (fun best c => if |c.cx - t| < |best.cx - t| then c else best) b).cx - t|
            ≤ |x.cx - t| := by
  intro l
  induction l with
  | nil => intro b; exact ⟨Or.inl rfl, le_refl _, by simp⟩
  | cons c tl ih =>
      intro b
      simp only [List.foldl_cons]
      obtain ⟨hmem, hle, hall⟩ := ih (if |c.cx - t| < |b.cx - t| then c else b)
      have hpick : |(if |c.cx - t| < |b.cx - t| then c else b).cx - t| ≤ |b.cx - t| := by
        by_cases hc : |c.cx - t| < |b.cx - t|
        · rw [if_pos hc]; exact le_of_lt hc
        · rw [if_neg hc]
      have hpickc : |(if |c.cx - t| < |b.cx - t| then c else b).cx - t| ≤ |c.cx - t| := by
        by_cases hc : |c.cx - t| < |b.cx - t|
        · rw [if_pos hc]
        · rw [if_neg hc]; exact le_of_not_lt hc
      refine ⟨?_, le_trans hle hpick, ?_⟩
      · rcases hmem with hm | hm
        · rw [hm]
          by_cases hc : |c.cx - t| < |b.cx - t|
          · rw [if_pos hc]; exact Or.inr (List.mem_cons_self _ _)
          · rw [if_neg hc]; exact Or.inl rfl
        · exact Or.inr (List.mem_cons_of_mem _ hm)
      · intro x hx
        rcases List.mem_cons.mp hx with hxc | hxt
        · subst hxc; exact le_trans hle hpickc
        · exact hall x hxt

/-- The revision's centroid pick returns a distance-minimizing member. -/
theorem pickClosestR_spec (t : ℚ) (l : List FlowV2.CompR) (c : FlowV2.CompR)
    (h : FlowV2.pickClosestR t l = some c) :
    c ∈ l ∧ ∀ c' ∈ l, |c.cx - t| ≤ |c'.cx - t| := by
  cases l with
  | nil => exact absurd h (by simp [FlowV2.pickClosestR])
  | cons hd tl =>
      have hc : c = (hd :: tl).foldl
          (fun best c => if |c.cx - t| < |best.cx - t| then c else best) hd := by
        have := h
        unfold FlowV2.pickClosestR at this
        injection this with h'
        exact h'.symm
      obtain ⟨hmem, -, hall⟩ := pickR_foldl_spec t (hd :: tl) hd
      rw [← hc] at hmem hall
      refine ⟨?_, hall⟩
      rcases hmem with hm | hm
      · rw [hm]; exact List.mem_cons_self _ _
      · exact hm

/-- C6 counterexample: the revised flow analyzer's centroid fallback is per
category, not reserved for collections with no transfer adjacency anywhere —
here a supply adjacency exists (the inserter feeds the furnace from the only
belt component, root `(0,0)`), no drain adjacency exists, and the drain
(output) component is nevertheless chosen by the centroid heuristic: it is
the supply component itself. -/
theorem C6_counterexample :
    FlowV2.inputRootsOf beltInsFurnace Flow.defaultBeltSpeeds = [(0, 0)]
    ∧ FlowV2.outputRootsOf beltInsFurnace Flow.defaultBeltSpeeds = []
    ∧ FlowV2.outputComponentV2 beltInsFurnace Flow.defaultBeltSpeeds
        = some ⟨0, (0, 0), 1, 15, 0, 0⟩ :=
  of_decide_eq_true (by with_unfolding_all rfl)

/-- C6 amended: the revised flow analyzer scans every transfer entity with a
defined orientation — a component root joins the supply set exactly when some
inserter picks up from a cell of that belt component and drops onto a furnace
cell, and joins the drain set exactly when some inserter (not making a
belt→furnace move) picks up from a furnace cell and drops onto a cell of that
component — and scan-detected components are preferred: with a non-empty
drain scan the output component carries the first scanned root, and only with
an empty drain scan is the output component the centroid-closest one. The
fallback is per category, so it can fire while supply adjacencies exist
elsewhere (see the counterexample). -/
theorem C6_amended :
    ∀ (es : List Flow.FEntity) (bS : Flow.SpeedTable),
      (∀ r : Flow.Cell, r ∈ FlowV2.inputRootsOf es bS
        ↔ ∃ ins ∈ es, ins.name = "inserter"
            ∧ FlowV2.stepDetectsInput (Flow.beltMapFrom (Flow.beltEntities bS es))
                (FlowV2.furnaceMapOf es)
                (Flow.parentOf (Flow.beltMapFrom (Flow.beltEntities bS es))) ins r = true)
      ∧ (∀ r : Flow.Cell, r ∈ FlowV2.outputRootsOf es bS
        ↔ ∃ ins ∈ es, ins.name = "inserter"
            ∧ FlowV2.stepDetectsOutput (Flow.beltMapFrom (Flow.beltEntities bS es))
                (FlowV2.furnaceMapOf es)
                (Flow.parentOf (Flow.beltMapFrom (Flow.beltEntities bS es))) ins r = true)
      ∧ (∀ (r : Flow.Cell) (rs : List Flow.Cell) (c : FlowV2.CompR),
          FlowV2.outputRootsOf es bS = r :: rs →
          FlowV2.outputComponentV2 es bS = some c →
          c ∈ FlowV2.compListR bS (Flow.beltEntities bS es) ∧ c.root = r)
      ∧ (FlowV2.outputRootsOf es bS = [] →
          ∀ c : FlowV2.CompR, FlowV2.outputComponentV2 es bS = some c →
            c ∈ FlowV2.compListR bS (Flow.beltEntities bS es)
            ∧ ∀ c' ∈ FlowV2.compListR bS (Flow.beltEntities bS es),
                |c.cx - Flow.centerXOf (Flow.beltEntities bS es)|
                  ≤ |c'.cx - Flow.centerXOf (Flow.beltEntities bS es)|) := by
  intro es bS
  refine ⟨?_, ?_, ?_, ?_⟩
  · intro r
    unfold FlowV2.inputRootsOf FlowV2.scanRootsOf
    rw [(scanFold_mem _ _ _ _ ([], []) r).1]
    simp only [List.not_mem_nil, false_or]
    constructor
    · rintro ⟨ins, hi, hdet⟩
      obtain ⟨hin, hname⟩ := List.mem_filter.mp hi
      exact ⟨ins, hin, by simpa using hname, hdet⟩
    · rintro ⟨ins, hin, hname, hdet⟩
      exact ⟨ins, List.mem_filter.mpr ⟨hin, by simpa using hname⟩, hdet⟩
  · intro r
    unfold FlowV2.outputRootsOf FlowV2.scanRootsOf
    rw [(scanFold_mem _ _ _ _ ([], []) r).2]
    simp only [List.not_mem_nil, false_or]
    constructor
    · rintro ⟨ins, hi, hdet⟩
      obtain ⟨hin, hname⟩ := List.mem_filter.mp hi
      exact ⟨ins, hin, by simpa using hname, hdet⟩
    · rintro ⟨ins, hin, hname, hdet⟩
      exact ⟨ins, List.mem_filter.mpr ⟨hin, by simpa using hname⟩, hdet⟩
  · intro r rs c hroots hc
    unfold FlowV2.outputComponentV2 at hc
    rw [hroots] at hc
    refine ⟨List.mem_of_find?_eq_some hc, ?_⟩
    have := List.find?_some hc
    simpa using this
  · intro hroots c hc
    unfold FlowV2.outputComponentV2 at hc
    rw [hroots] at hc
    exact pickClosestR_spec _ _ c hc

/-- C6 amended, witnessed: with the furnace feeding the belt through a
west-pointing inserter the drain scan detects root `(0,0)`, and the output
component is the scan-detected component carrying that root. -/
theorem C6_amended_witness :
    (∃ ins ∈ beltInsFurnaceW, ins.name = "inserter"
      ∧ FlowV2.stepDetectsOutput
          (Flow.beltMapFrom (Flow.beltEntities Flow.defaultBeltSpeeds beltInsFurnaceW))
          (FlowV2.furnaceMapOf beltInsFurnaceW)
          (Flow.parentOf (Flow.beltMapFrom (Flow.beltEntities Flow.defaultBeltSpeeds beltInsFurnaceW)))
          ins ((0, 0) : Flow.Cell) = true)
    ∧ (⟨0, (0, 0), 1, 15, 0, 0⟩ : FlowV2.CompR)
        ∈ FlowV2.compListR Flow.defaultBeltSpeeds
            (Flow.beltEntities Flow.defaultBeltSpeeds beltInsFurnaceW)
    ∧ (⟨0, (0, 0), 1, 15, 0, 0⟩ : FlowV2.CompR).root = ((0, 0) : Flow.Cell) := by
  obtain ⟨-, hout, hpref, -⟩ := C6_amended beltInsFurnaceW Flow.defaultBeltSpeeds
  have h2 := hpref (0, 0) [] ⟨0, (0, 0), 1, 15, 0, 0⟩
    (of_decide_eq_true (by with_unfolding_all rfl))
    (of_decide_eq_true (by with_unfolding_all rfl))
  exact ⟨(hout (0, 0)).mp (of_decide_eq_true (by with_unfolding_all rfl)), h2.1, h2.2⟩

/-- Keys of the dedup output: exactly the input keys not already seen. -/
theorem mem_key_dedupAux :
    ∀ (l : List Entity) (seen : List (String × ℚ × ℚ × Option ℤ))
      (k : String × ℚ × ℚ × Option ℤ),
      k ∈ (Compose.dedupAux seen l).map Compose.entityKey
        ↔ k ∈ l.map Compose.entityKey ∧ k ∉ seen := by
  intro l
  induction l with
  | nil => intro seen k; simp [Compose.dedupAux]
  | cons e t ih =>
      intro seen k
      by_cases he : Compose.entityKey e ∈ seen
      · rw [Compose.dedupAux, if_pos he, ih]
        simp only [List.map_cons, List.mem_cons]
        constructor
        · rintro ⟨hk, hs⟩; exact ⟨Or.inr hk, hs⟩
        · rintro ⟨hk | hk, hs⟩
          · exact absurd (hk ▸ he) hs
          · exact ⟨hk, hs⟩
      · rw [Compose.dedupAux, if_neg he]
        simp only [List.map_cons, List.mem_cons, ih]
        constructor
        · rintro (hk | ⟨hk, hs⟩)
          · exact ⟨Or.inl hk, hk ▸ he⟩
          · exact ⟨Or.inr hk, fun hm => hs (Or.inr hm)⟩
        · rintro ⟨hk | hk, hs⟩
          · exact Or.inl hk
          · by_cases hke : k = Compose.entityKey e
            · exact Or.inl hke
            · exact Or.inr ⟨hk, by simp [hke, hs]⟩

/-- The dedup output carries pairwise-distinct keys. -/
theorem dedupAux_keys_nodup :
    ∀ (l : List Entity) (seen : List (String × ℚ × ℚ × Option ℤ)),
      ((Compose.dedupAux seen l).map Compose.entityKey).Nodup := by
  intro l
  induction l with
  | nil => intro seen; simp [Compose.dedupAux]
  | cons e t ih =>
      intro seen
      by_cases he : Compose.entityKey e ∈ seen
      · rw [Compose.dedupAux, if_pos he]; exact ih seen
      · rw [Compose.dedupAux, if_neg he]
        simp only [List.map_cons, List.nodup_cons]
        refine ⟨fun hm => ?_, ih _⟩
        exact ((mem_key_dedupAux t _ _).mp hm).2 (List.mem_cons_self _ _)

/-- C1 amended: the dedup postcondition holds of the collection the dedup
loop produces — before the direction repair runs, no two entities share a
`(type, position, orientation)` tuple. -/
theorem C1_amended :
    ∀ (unit : List Entity) (p : Compose.Params) (out : List Entity),
      Compose.composeDedup unit p = some out → dupKeyFree out := by
  intro unit p out h
  unfold Compose.composeDedup at h
  by_cases hu : unit = []
  · rw [if_pos hu] at h; exact absurd h (by simp)
  · rw [if_neg hu] at h
    have : out = Compose.dedupByKey (Compose.outEntitiesOf unit p) := by
      injection h with h'; exact h'.symm
    rw [this]
    exact dedupAux_keys_nodup _ _

/-- C1 amended, witnessed at the two-inserter unit: the dedup-stage output
(the same three distinct tuples) is duplicate-free. -/
theorem C1_amended_witness : dupKeyFree unitTwoIns :=
  C1_amended unitTwoIns paramsIdent unitTwoIns
    (of_decide_eq_true (by with_unfolding_all rfl))

/-- C2 amended: the transform script's inference pass only ever assigns to
undefined-orientation inserters (anything defined, non-transfer, or without
an adjacent producer passes through unchanged), while the composer's repair
pass rewrites every inserter that has an adjacent producer — defined
orientation or not — and leaves the rest unchanged. -/
theorem C2_amended :
    ∀ (l : List Entity) (i : ℕ) (e : Entity), l[i]? = some e →
      ((e.name = "inserter" → e.direction ≠ none) →
        (Transform.inferDirections l)[i]? = some e)
      ∧ (e.name ≠ "inserter" → (Compose.repairInserters l)[i]? = some e)
      ∧ (Compose.producerNear l e.position.x e.position.y = none →
          (Transform.inferDirections l)[i]? = some e
          ∧ (Compose.repairInserters l)[i]? = some e)
      ∧ (∀ furn : Entity, e.name = "inserter" →
          Compose.producerNear l e.position.x e.position.y = some furn →
          (Compose.repairInserters l)[i]? = some
            { e with direction := some (vecToDirStep
                ⟨(jsRound (furn.position.x - e.position.x) : ℚ),
                 (jsRound (furn.position.y - e.position.y) : ℚ)⟩ * 4) }) := by
  intro l i e h
  refine ⟨?_, ?_, ?_, ?_⟩
  · intro hd
    rw [Transform.inferDirections, List.getElem?_map, h]
    by_cases hn : e.name = "inserter"
    · have : ¬(e.name = "inserter" ∧ e.direction = none) := by
        rintro ⟨-, h2⟩; exact hd hn h2
      simp [this]
    · have : ¬(e.name = "inserter" ∧ e.direction = none) := by
        rintro ⟨h1, -⟩; exact hn h1
      simp [this]
  · intro hn
    rw [Compose.repairInserters, List.getElem?_map, h]
    simp [hn]
  · intro hp
    constructor
    · rw [Transform.inferDirections, List.getElem?_map, h]
      by_cases hc : e.name = "inserter" ∧ e.direction = none
      · simp [hc, hp]
      · simp [hc]
    · rw [Compose.repairInserters, List.getElem?_map, h]
      by_cases hn : e.name = "inserter"
      · simp [hn, hp]
      · simp [hn]
  · intro furn hn hp
    rw [Compose.repairInserters, List.getElem?_map, h]
    simp [hn, hp]

/-- C2 amended, witnessed: the composer's repair rewrites the
defined-orientation inserter of `insAndFurnace` to point east at the
furnace. -/
theorem C2_amended_witness :
    (Compose.repairInserters insAndFurnace)[0]? = some ⟨"inserter", ⟨0, 0⟩, some 4⟩ := by
  have h := (C2_amended insAndFurnace 0 ⟨"inserter", ⟨0, 0⟩, some 0⟩
      (of_decide_eq_true (by with_unfolding_all rfl))).2.2.2
      ⟨"stone-furnace", ⟨1, 0⟩, none⟩ rfl
      (of_decide_eq_true (by with_unfolding_all rfl))
  rw [h]
  with_unfolding_all rfl

/-- The footprint min/max fold is insensitive to the order of its last two
entities. -/
theorem extentFold_comm (rot : ℤ) (fx fy : Bool)
    (acc : Option (ℚ × ℚ × ℚ × ℚ)) (e1 e2 : Entity) :
    Compose.extentFold rot fx fy (Compose.extentFold rot fx fy acc e1) e2
      = Compose.extentFold rot fx fy (Compose.extentFold rot fx fy acc e2) e1 := by
  cases acc with
  | none => simp [Compose.extentFold, min_comm, max_comm]
  | some q =>
      obtain ⟨mX, mY, MX, MY⟩ := q
      simp [Compose.extentFold, min_right_comm, sup_right_comm]

/-- Footprint bounds are a function of the entity multiset. -/
theorem footprintBounds_perm {U V : List Entity} (h : U.Perm V) (rot : ℤ)
    (fx fy : Bool) :
    Compose.footprintBounds U rot fx fy = Compose.footprintBounds V rot fx fy := by
  unfold Compose.footprintBounds
  rw [h.foldl_eq' (fun x _ y _ z => extentFold_comm rot fx fy z x y) none]

theorem normEntities_perm {U V : List Entity} (h : U.Perm V) (p : Compose.Params) :
    (Compose.normEntities U p).Perm (Compose.normEntities V p) := by
  unfold Compose.normEntities
  by_cases hn : p.normalize
  · rw [if_pos hn, if_pos hn, footprintBounds_perm h]
    exact h.map _
  · rw [if_neg hn, if_neg hn]; exact h

theorem outEntitiesOf_perm {U V : List Entity} (h : U.Perm V) (p : Compose.Params) :
    (Compose.outEntitiesOf U p).Perm (Compose.outEntitiesOf V p) := by
  have hnorm := normEntities_perm h p
  have hfb : ∀ rot fx fy, Compose.footprintBounds (Compose.normEntities U p) rot fx fy
      = Compose.footprintBounds (Compose.normEntities V p) rot fx fy :=
    fun rot fx fy => footprintBounds_perm hnorm rot fx fy
  have hsx : Compose.stepXOfUnit U p = Compose.stepXOfUnit V p := by
    unfold Compose.stepXOfUnit; rw [hfb]
  have hsy : Compose.stepYOfUnit U p = Compose.stepYOfUnit V p := by
    unfold Compose.stepYOfUnit; rw [hfb]
  unfold Compose.outEntitiesOf
  rw [hsx, hsy, hfb]
  refine List.Perm.flatMap_left _ (fun r _ => ?_)
  refine List.Perm.flatMap_left _ (fun c _ => ?_)
  unfold Compose.tileEntities
  simp only [footprintBounds_perm hnorm]
  exact hnorm.map _

/-- Dedup keeps exactly the distinct keys of its input. -/
theorem dedupByKey_keyset (l : List Entity) :
    ((Compose.dedupByKey l).map Compose.entityKey).toFinset
      = (l.map Compose.entityKey).toFinset := by
  apply Finset.ext
  intro k
  simp only [List.mem_toFinset, Compose.dedupByKey]
  rw [mem_key_dedupAux]
  simp

/-- C7 amended: composition's dedup-stage output has a permutation-invariant
set of `(type, position, orientation)` keys — but full order independence
fails (see the counterexample): the flow analyzer's grid map is last-wins and
the repair pass's producer search takes the first match in list order. -/
theorem C7_amended :
    ∀ (U V : List Entity) (p : Compose.Params), U.Perm V →
      (Compose.composeDedup U p).map (fun l => (l.map Compose.entityKey).toFinset)
        = (Compose.composeDedup V p).map (fun l => (l.map Compose.entityKey).toFinset) := by
  intro U V p h
  unfold Compose.composeDedup
  by_cases hu : U = []
  · have hv : V = [] := by
      subst hu; exact h.symm.eq_nil
    rw [if_pos hu, if_pos hv]
  · have hv : ¬(V = []) := fun hv => hu (by subst hv; exact h.eq_nil)
    rw [if_neg hu, if_neg hv]
    show some (((Compose.dedupByKey (Compose.outEntitiesOf U p)).map Compose.entityKey).toFinset)
      = some (((Compose.dedupByKey (Compose.outEntitiesOf V p)).map Compose.entityKey).toFinset)
    rw [dedupByKey_keyset, dedupByKey_keyset]
    exact congrArg some
      (List.toFinset_eq_of_perm _ _ ((outEntitiesOf_perm h p).map _))

/-- C7 amended, witnessed: swapping the two inserters of the two-inserter
unit leaves the dedup-stage key set unchanged. -/
theorem C7_amended_witness :
    (Compose.composeDedup unitTwoIns paramsIdent).map
        (fun l => (l.map Compose.entityKey).toFinset)
      = (Compose.composeDedup unitTwoInsSwapped paramsIdent).map
          (fun l => (l.map Compose.entityKey).toFinset) :=
  C7_amended unitTwoIns unitTwoInsSwapped paramsIdent
    (of_decide_eq_true (by with_unfolding_all rfl))

/-! ## C4 — bottleneck flag -/

/-- The strict-closest fold returns a closest element of the candidate set. -/
theorem pick_foldl_spec (t : ℚ) :
    ∀ (l : List Flow.Comp) (b : Flow.Comp),
      (l.foldl (fun best c => if |c.cx - t| < |best.cx - t| then c else best) b = b
        ∨ l.foldl (fun best c => if |c.cx - t| < |best.cx - t| then c else best) b ∈ l)
      ∧ |(l.foldl (fun best c => if |c.cx - t| < |best.cx - t| then c else best) b).cx - t|
          ≤ |b.cx - t|
      ∧ ∀ x ∈ l,
          |(l.foldl (fun best c => if |c.cx - t| < |best.cx - t| then c else best) b).cx - t|
            ≤ |x.cx - t| := by
  intro l
  induction l with
  | nil => intro b; exact ⟨Or.inl rfl, le_refl _, by simp⟩
  | cons c tl ih =>
      intro b
      simp only [List.foldl_cons]
      obtain ⟨hmem, hle, hall⟩ := ih (if |c.cx - t| < |b.cx - t| then c else b)
      have hpick : |(if |c.cx - t| < |b.cx - t| then c else b).cx - t| ≤ |b.cx - t| := by
        by_cases hc : |c.cx - t| < |b.cx - t|
        · rw [if_pos hc]; exact le_of_lt hc
        · rw [if_neg hc]
      have hpickc : |(if |c.cx - t| < |b.cx - t| then c else b).cx - t| ≤ |c.cx - t| := by
        by_cases hc : |c.cx - t| < |b.cx - t|
        · rw [if_pos hc]
        · rw [if_neg hc]; exact le_of_not_lt hc
      refine ⟨?_, le_trans hle hpick, ?_⟩
      · rcases hmem with hm | hm
        · rw [hm]
          by_cases hc : |c.cx - t| < |b.cx - t|
          · rw [if_pos hc]; exact Or.inr (List.mem_cons_self _ _)
          · rw [if_neg hc]; exact Or.inl rfl
        · exact Or.inr (List.mem_cons_of_mem _ hm)
      · intro x hx
        rcases List.mem_cons.mp hx with hxc | hxt
        · subst hxc; exact le_trans hle hpickc
        · exact hall x hxt

/-- `pickClosest` returns a member minimizing the distance to the target. -/
theorem pickClosest_spec (t : ℚ) (l : List Flow.Comp) (c : Flow.Comp)
    (h : Flow.pickClosest t l = some c) :
    c ∈ l ∧ ∀ c' ∈ l, |c.cx - t| ≤ |c'.cx - t| := by
  cases l with
  | nil => exact absurd h (by simp [Flow.pickClosest])
  | cons hd tl =>
      have hc : c = (hd :: tl).foldl
          (fun best c => if |c.cx - t| < |best.cx - t| then c else best) hd := by
        have := h
        unfold Flow.pickClosest at this
        injection this with h'
        exact h'.symm
      obtain ⟨hmem, -, hall⟩ := pick_foldl_spec t (hd :: tl) hd
      rw [← hc] at hmem hall
      refine ⟨?_, hall⟩
      rcases hmem with hm | hm
      · rw [hm]; exact List.mem_cons_self _ _
      · exact hm

/-- C4: whenever the report has a drain (output) component, that component is
a member of the component list minimizing the centroid distance to the
horizontal midpoint, and the bottleneck flag is `true` exactly when the
required throughput is at least that component's capacity (`>=`, inclusive). -/
theorem C4_bottleneck_iff :
    ∀ (es : List Flow.FEntity) (speeds bS : Flow.SpeedTable) (rt : ℚ) (c : Flow.Comp),
      (Flow.flowReport es speeds bS rt).outputComponent = some c →
      c ∈ (Flow.flowReport es speeds bS rt).comps
      ∧ (∀ c' ∈ (Flow.flowReport es speeds bS rt).comps,
          |c.cx - Flow.centerXOf (Flow.beltEntities bS es)|
            ≤ |c'.cx - Flow.centerXOf (Flow.beltEntities bS es)|)
      ∧ ((Flow.flowReport es speeds bS rt).bottleneck = true
          ↔ (Flow.flowReport es speeds bS rt).total ≥ c.cap) := by
  intro es speeds bS rt c h
  have hout : Flow.outputComponentOf bS (Flow.beltEntities bS es) = some c := h
  have hspec := pickClosest_spec (Flow.centerXOf (Flow.beltEntities bS es))
    (Flow.compListFrom bS (Flow.beltEntities bS es)) c hout
  have hcap : Flow.outputCapOf bS (Flow.beltEntities bS es) = c.cap := by
    unfold Flow.outputCapOf
    rw [hout]
  refine ⟨hspec.1, hspec.2, ?_⟩
  show decide (Flow.totalPerSec es speeds rt ≥ Flow.outputCapOf bS (Flow.beltEntities bS es)) = true ↔ _
  rw [hcap, decide_eq_true_iff]
  exact Iff.rfl

/-- C4 witnessed at the boundary: drain capacity 90 with required throughput
90 bottlenecks; required throughput 89.999 does not. -/
theorem C4_bottleneck_iff_witness :
    (Flow.flowReport belt90 [("maker", 90)] table90 1).bottleneck = true
    ∧ (Flow.flowReport belt90 [("maker", 89999/1000)] table90 1).bottleneck = false := by
  constructor
  · exact ((C4_bottleneck_iff belt90 [("maker", 90)] table90 1 ⟨0, 1, 90, 0, 0⟩
        (of_decide_eq_true (by with_unfolding_all rfl))).2.2).mpr
      (of_decide_eq_true (by with_unfolding_all rfl))
  · have h := (C4_bottleneck_iff belt90 [("maker", 89999/1000)] table90 1 ⟨0, 1, 90, 0, 0⟩
        (of_decide_eq_true (by with_unfolding_all rfl))).2.2
    have hn : ¬((Flow.flowReport belt90 [("maker", 89999/1000)] table90 1).total
        ≥ (⟨0, 1, 90, 0, 0⟩ : Flow.Comp).cap) :=
      of_decide_eq_false (by with_unfolding_all rfl)
    cases hb : (Flow.flowReport belt90 [("maker", 89999/1000)] table90 1).bottleneck
    · rfl
    · exact absurd (h.mp hb) hn

/-! ## C10 — last-wins grid collapse -/

/-- Replacing the value stored under key `k` leaves lookups of other keys
unchanged. -/
theorem mapGet_map_replace {K V : Type} [DecidableEq K] (t : List (K × V))
    (k k' : K) (v : V) (h : k' ≠ k) :
    Flow.mapGet (t.map (fun q => if q.1 = k then (k, v) else q)) k'
      = Flow.mapGet t k' := by
  induction t with
  | nil => rfl
  | cons q tl ih =>
      by_cases hq : q.1 = k
      · rw [List.map_cons, if_pos hq]
        rw [Flow.mapGet, Flow.mapGet, if_neg (fun hkk' => h hkk'.symm),
          if_neg (fun hq' : q.1 = k' => h (hq' ▸ hq.symm ▸ rfl))]
        exact ih
      · rw [List.map_cons, if_neg hq]
        rw [Flow.mapGet, Flow.mapGet]
        by_cases hq' : q.1 = k'
        · rw [if_pos hq', if_pos hq']
        · rw [if_neg hq', if_neg hq']; exact ih

/-- `Map.set` then `Map.get`. -/
theorem mapGet_mapSet {K V : Type} [DecidableEq K] (m : List (K × V))
    (k k' : K) (v : V) :
    Flow.mapGet (Flow.mapSet m k v) k' = if k' = k then some v else Flow.mapGet m k' := by
  induction m with
  | nil =>
      unfold Flow.mapSet
      simp only [List.any_nil, Bool.false_eq_true, if_false, List.nil_append]
      rw [Flow.mapGet, Flow.mapGet]
      by_cases h : k' = k
      · rw [if_pos h, if_pos h.symm]
      · rw [if_neg h, if_neg (fun hk : k = k' => h hk.symm)]; rfl
  | cons p t ih =>
      unfold Flow.mapSet
      by_cases hp : p.1 = k
      · have hany : (p :: t).any (fun q => decide (q.1 = k)) = true := by
          simp [hp]
        rw [if_pos hany, List.map_cons, if_pos hp]
        by_cases h : k' = k
        · subst h; rw [Flow.mapGet, if_pos rfl, if_pos rfl]
        · rw [Flow.mapGet, if_neg (fun hk : k = k' => h hk.symm), if_neg h,
            mapGet_map_replace t k k' v h, Flow.mapGet, if_neg (hp ▸ fun hq : p.1 = k' => h (hq ▸ hp.symm ▸ rfl))]
      · by_cases ht : t.any (fun q => decide (q.1 = k)) = true
        · have hany : (p :: t).any (fun q => decide (q.1 = k)) = true := by
            simp only [List.any_cons, ht, Bool.or_true]
          rw [if_pos hany, List.map_cons, if_neg hp]
          have ihm : Flow.mapGet (t.map (fun q => if q.1 = k then (k, v) else q)) k'
              = if k' = k then some v else Flow.mapGet t k' := by
            have := ih
            unfold Flow.mapSet at this
            rw [if_pos ht] at this
            exact this
          rw [Flow.mapGet, Flow.mapGet]
          by_cases hq' : p.1 = k'
          · rw [if_pos hq', if_pos hq',
              if_neg (fun h : k' = k => hp (hq' ▸ h ▸ rfl))]
          · rw [if_neg hq', if_neg hq', ihm]
        · have hany : ¬((p :: t).any (fun q => decide (q.1 = k)) = true) := by
            simp only [List.any_cons, Bool.or_eq_true, decide_eq_true_eq]
            rintro (h1 | h2)
            · exact hp h1
            · exact ht (by simpa using h2)
          rw [if_neg hany]
          have ihm : Flow.mapGet (t ++ [(k, v)]) k'
              = if k' = k then some v else Flow.mapGet t k' := by
            have := ih
            unfold Flow.mapSet at this
            rw [if_neg (by simpa using ht)] at this
            exact this
          rw [List.cons_append, Flow.mapGet, Flow.mapGet]
          by_cases hq' : p.1 = k'
          · rw [if_pos hq', if_pos hq',
              if_neg (fun h : k' = k => hp (hq' ▸ h ▸ rfl))]
          · rw [if_neg hq', if_neg hq', ihm]

/-- `Map.set` keeps the existing key list, or appends the fresh key. -/
theorem mapSet_keys {K V : Type} [DecidableEq K] (m : List (K × V)) (k : K) (v : V) :
    (Flow.mapSet m k v).map Prod.fst
      = if m.any (fun q => decide (q.1 = k)) = true then m.map Prod.fst
        else m.map Prod.fst ++ [k] := by
  unfold Flow.mapSet
  by_cases h : m.any (fun q => decide (q.1 = k)) = true
  · rw [if_pos h, if_pos h, List.map_map]
    apply List.map_congr_left
    intro q _
    by_cases hq : q.1 = k
    · simp [hq]
    · simp [hq]
  · rw [if_neg h, if_neg h, List.map_append]
    rfl

/-- `Map.set` preserves distinctness of the stored keys. -/
theorem mapSet_keys_nodup {K V : Type} [DecidableEq K] (m : List (K × V))
    (k : K) (v : V) (h : (m.map Prod.fst).Nodup) :
    ((Flow.mapSet m k v).map Prod.fst).Nodup := by
  rw [mapSet_keys]
  by_cases hm : m.any (fun q => decide (q.1 = k)) = true
  · rw [if_pos hm]; exact h
  · rw [if_neg hm]
    have hk : k ∉ m.map Prod.fst := by
      intro hmem
      apply hm
      simp only [List.any_eq_true, decide_eq_true_eq]
      obtain ⟨q, hq, hq2⟩ := List.mem_map.mp hmem
      exact ⟨q, hq, hq2⟩
    simp [List.nodup_append, h, hk]

/-- The belt-map fold looks up to the last matching entity, falling back to
the initial map. -/
theorem beltMapFold_lookup :
    ∀ (l : List Flow.FEntity) (m0 : List (Flow.Cell × Flow.Item)) (c : Flow.Cell),
      Flow.mapGet (l.foldl (fun m b => Flow.mapSet m (Flow.cellOf b) (Flow.itemOf b)) m0) c
        = match lastItemAt l c with
          | some it => some it
          | none => Flow.mapGet m0 c := by
  intro l
  induction l with
  | nil => intro m0 c; rfl
  | cons b t ih =>
      intro m0 c
      rw [List.foldl_cons, ih, lastItemAt]
      cases hlast : lastItemAt t c with
      | some it => rfl
      | none =>
          rw [mapGet_mapSet]
          by_cases hc : Flow.cellOf b = c
          · rw [if_pos hc, if_pos hc.symm]
          · rw [if_neg hc, if_neg (fun h : c = Flow.cellOf b => hc h.symm)]

/-- C10 lookup form: `beltMap` holds exactly the last transport entity per
rounded grid cell. -/
theorem beltMap_lookup_last (belts : List Flow.FEntity) (c : Flow.Cell) :
    Flow.mapGet (Flow.beltMapFrom belts) c = lastItemAt belts c := by
  unfold Flow.beltMapFrom
  rw [beltMapFold_lookup belts [] c]
  cases lastItemAt belts c <;> rfl

/-- Keys of any fold of `Map.set` updates over a keyless start are distinct. -/
theorem beltMapFrom_keys_nodup (belts : List Flow.FEntity) :
    ((Flow.beltMapFrom belts).map Prod.fst).Nodup := by
  unfold Flow.beltMapFrom
  suffices h : ∀ (l : List Flow.FEntity) (m0 : List (Flow.Cell × Flow.Item)),
      (m0.map Prod.fst).Nodup →
      ((l.foldl (fun m b => Flow.mapSet m (Flow.cellOf b) (Flow.itemOf b)) m0).map Prod.fst).Nodup by
    exact h belts [] (by simp)
  intro l
  induction l with
  | nil => intro m0 h; exact h
  | cons b t ih =>
      intro m0 h
      rw [List.foldl_cons]
      exact ih _ (mapSet_keys_nodup m0 _ _ h)

/-- A nodup-keyed association list looks up each of its own entries. -/
theorem assoc_mem_mapGet {K V : Type} [DecidableEq K] :
    ∀ (m : List (K × V)), (m.map Prod.fst).Nodup → ∀ kv ∈ m,
      Flow.mapGet m kv.1 = some kv.2 := by
  intro m
  induction m with
  | nil => intro _ kv h; exact absurd h (by simp)
  | cons p t ih =>
      intro hn kv hkv
      rw [List.map_cons, List.nodup_cons] at hn
      rcases List.mem_cons.mp hkv with h | h
      · subst h; rw [Flow.mapGet, if_pos rfl]
      · rw [Flow.mapGet]
        have hne : ¬(p.1 = kv.1) := by
          intro he
          exact hn.1 (he ▸ List.mem_map.mpr ⟨kv, h, rfl⟩)
        rw [if_neg hne]
        exact ih hn.2 kv h

/-- The component-assembly fold groups the processed keys by union-find
root: the record under root `r` holds exactly the processed keys whose root
is `r`, in processing order. -/
theorem compsFold_group_keys (parent : List (Flow.Cell × Flow.Cell)) :
    ∀ (l : List (Flow.Cell × Flow.Item)) (acc : List (Flow.Cell × Flow.CompInfo))
      (r : Flow.Cell),
      ((Flow.mapGet (l.foldl (fun comps kv =>
          Flow.compsUpdate comps (Flow.findRoot parent parent.length kv.1) kv.1 kv.2)
          acc) r).elim [] Flow.CompInfo.keys)
        = ((Flow.mapGet acc r).elim [] Flow.CompInfo.keys)
          ++ (l.map Prod.fst).filter
              (fun k => decide (Flow.findRoot parent parent.length k = r)) := by
  intro l
  induction l with
  | nil => intro acc r; simp
  | cons kv t ih =>
      intro acc r
      rw [List.foldl_cons, ih]
      have hupd : ((Flow.mapGet (Flow.compsUpdate acc
            (Flow.findRoot parent parent.length kv.1) kv.1 kv.2) r).elim
            [] Flow.CompInfo.keys)
          = if r = Flow.findRoot parent parent.length kv.1
            then ((Flow.mapGet acc r).elim [] Flow.CompInfo.keys) ++ [kv.1]
            else ((Flow.mapGet acc r).elim [] Flow.CompInfo.keys) := by
        unfold Flow.compsUpdate
        rw [mapGet_mapSet]
        by_cases hr : r = Flow.findRoot parent parent.length kv.1
        · rw [if_pos hr, if_pos hr, hr]
          cases Flow.mapGet acc (Flow.findRoot parent parent.length kv.1) <;> rfl
        · rw [if_neg hr, if_neg hr]
      rw [hupd]
      by_cases hr : r = Flow.findRoot parent parent.length kv.1
      · rw [if_pos hr, List.map_cons,
          List.filter_cons_of_pos (by simp [hr])]
        simp
      · rw [if_neg hr, List.map_cons,
          List.filter_cons_of_neg
            (by simp only [decide_eq_true_eq]; exact fun h => hr h.symm)]

/-- The assembled components carry pairwise-distinct association keys. -/
theorem compsOf_assoc_keys_nodup (bm : List (Flow.Cell × Flow.Item)) :
    ((Flow.compsOf bm).map Prod.fst).Nodup := by
  unfold Flow.compsOf
  suffices h : ∀ (l : List (Flow.Cell × Flow.Item))
      (acc : List (Flow.Cell × Flow.CompInfo)), (acc.map Prod.fst).Nodup →
      ((l.foldl (fun comps kv => Flow.compsUpdate comps
        (Flow.findRoot (Flow.parentOf bm) (Flow.parentOf bm).length kv.1) kv.1 kv.2)
        acc).map Prod.fst).Nodup by
    exact h bm [] (by simp)
  intro l
  induction l with
  | nil => intro acc h; exact h
  | cons kv t ih =>
      intro acc h
      rw [List.foldl_cons]
      refine ih _ ?_
      unfold Flow.compsUpdate
      exact mapSet_keys_nodup acc _ _ h

/-- Each component's member cells are exactly the belt-map keys with its
root, hence distinct whenever the belt-map keys are distinct. -/
theorem compsOf_member_keys (bm : List (Flow.Cell × Flow.Item))
    (hn : (bm.map Prod.fst).Nodup) :
    ∀ rc ∈ Flow.compsOf bm,
      rc.2.keys = (bm.map Prod.fst).filter
          (fun k => decide (Flow.findRoot (Flow.parentOf bm) (Flow.parentOf bm).length k = rc.1))
      ∧ rc.2.keys.Nodup := by
  intro rc hrc
  have hget : Flow.mapGet (Flow.compsOf bm) rc.1 = some rc.2 :=
    assoc_mem_mapGet _ (compsOf_assoc_keys_nodup bm) rc hrc
  have hkeys := compsFold_group_keys (Flow.parentOf bm) bm [] rc.1
  unfold Flow.compsOf at hget
  rw [hget] at hkeys
  simp only [Option.elim] at hkeys
  rw [show (Flow.mapGet ([] : List (Flow.Cell × Flow.CompInfo)) rc.1) = none from rfl] at hkeys
  simp only [Option.elim, List.nil_append] at hkeys
  exact ⟨hkeys, hkeys ▸ hn.filter _⟩

/-- The reported component sizes are the member-cell counts. -/
theorem compListFrom_sizes (bS : Flow.SpeedTable) (belts : List Flow.FEntity) :
    (Flow.compListFrom bS belts).map (·.size)
      = (Flow.compsOf (Flow.beltMapFrom belts)).map (fun rc => rc.2.keys.length) := by
  unfold Flow.compListFrom
  rw [List.map_map]
  have h1 : ((Flow.compsOf (Flow.beltMapFrom belts)).map (·.2)).enum.map
        ((fun c : Flow.Comp => c.size) ∘ (fun ic : ℕ × Flow.CompInfo => Flow.compOf bS ic.1 ic.2))
      = ((Flow.compsOf (Flow.beltMapFrom belts)).map (·.2)).enum.map
        ((fun ci : Flow.CompInfo => ci.keys.length) ∘ Prod.snd) := by
    apply List.map_congr_left
    intro ic _
    rfl
  rw [h1, ← List.map_map, List.enum_map_snd, List.map_map]
  rfl

/-- C10: in the flow analyzer, only the last transport entity per rounded
grid cell is kept — the belt map's lookup at each cell is exactly the last
matching entity in input order, the map's keys (from which components, lane
speeds and capacities are computed) are distinct cells, each assembled
component's member-cell list is duplicate-free, and every reported component
size equals its number of distinct occupied grid cells. -/
theorem C10_last_wins :
    ∀ (es : List Flow.FEntity) (speeds bS : Flow.SpeedTable) (rt : ℚ) (c : Flow.Cell),
      Flow.mapGet (Flow.beltMapFrom (Flow.beltEntities bS es)) c
          = lastItemAt (Flow.beltEntities bS es) c
      ∧ ((Flow.beltMapFrom (Flow.beltEntities bS es)).map Prod.fst).Nodup
      ∧ (∀ rc ∈ Flow.compsOf (Flow.beltMapFrom (Flow.beltEntities bS es)),
          rc.2.keys.Nodup)
      ∧ (Flow.flowReport es speeds bS rt).comps.map (·.size)
          = (Flow.compsOf (Flow.beltMapFrom (Flow.beltEntities bS es))).map
              (fun rc => rc.2.keys.toFinset.card) := by
  intro es speeds bS rt c
  have hn := beltMapFrom_keys_nodup (Flow.beltEntities bS es)
  have hmem := compsOf_member_keys (Flow.beltMapFrom (Flow.beltEntities bS es)) hn
  refine ⟨beltMap_lookup_last _ c, hn, fun rc hrc => (hmem rc hrc).2, ?_⟩
  have hsz : (Flow.flowReport es speeds bS rt).comps.map (·.size)
      = (Flow.compsOf (Flow.beltMapFrom (Flow.beltEntities bS es))).map
          (fun rc => rc.2.keys.length) := compListFrom_sizes bS _
  rw [hsz]
  apply List.map_congr_left
  intro rc hrc
  exact (List.toFinset_card_of_nodup ((hmem rc hrc).2)).symm

/-- C10 witnessed on two same-cell belts: the lookup keeps the later (slow)
belt, and the single component's cells are the one distinct grid cell. -/
theorem C10_last_wins_witness :
    Flow.mapGet (Flow.beltMapFrom (Flow.beltEntities Flow.defaultBeltSpeeds fastThenSlow)) (0, 0)
        = some ⟨"transport-belt", 0, 0, none⟩
    ∧ ([((0, 0) : Flow.Cell)]).Nodup := by
  constructor
  · exact (C10_last_wins fastThenSlow [] Flow.defaultBeltSpeeds 1 (0, 0)).1.trans
      (of_decide_eq_true (by with_unfolding_all rfl))
  · exact (C10_last_wins fastThenSlow [] Flow.defaultBeltSpeeds 1 (0, 0)).2.2.1
      ⟨(0, 0), ⟨[(0, 0)], [⟨"transport-belt", 0, 0, none⟩], [0], [0]⟩⟩
      (of_decide_eq_true (by with_unfolding_all rfl))

/-! ## C3 — edge-sharing count law -/

theorem rotatePos_zero (x y : ℚ) : Compose.rotatePos x y 0 = ⟨x, y⟩ := rfl

/-- Snapping is the identity on half-tile coordinates. -/
theorem snapToHalf_of_isHalf (q : ℚ) (h : isHalf q) : Compose.snapToHalf q = q := by
  unfold Compose.snapToHalf jsRound
  have h2 : (((2 * q).num : ℤ) : ℚ) = 2 * q := (Rat.den_eq_one_iff _).mp h
  rw [mul_comm q 2, ← h2, Int.floor_int_add]
  have hhalf : ⌊(1 : ℚ) / 2⌋ = 0 := by norm_num
  rw [hhalf, add_zero, h2]
  ring

/-- Half-tile coordinates are closed under integer translation. -/
theorem isHalf_add_int (q : ℚ) (t : ℤ) (h : isHalf q) : isHalf (q + (t : ℚ)) := by
  unfold isHalf at h ⊢
  have h2 : (((2 * q).num : ℤ) : ℚ) = 2 * q := (Rat.den_eq_one_iff _).mp h
  have he : 2 * (q + (t : ℚ)) = (((2 * q).num + 2 * t : ℤ) : ℚ) := by
    push_cast
    rw [h2]
    ring
  rw [he, Rat.den_intCast]

theorem translateX_zero (e : Entity) : translateX 0 e = e := by
  unfold translateX
  simp

/-- The direction-normalization step of `flipEntity`/`rotateEntity` is the
identity on canonical direction values, so a no-flip `flipEntity` is the
identity on wellformed entities. -/
theorem flipEntity_id (e : Entity)
    (hd : e.direction = none ∨ e.direction = some 0 ∨ e.direction = some 4 ∨
      e.direction = some 8 ∨ e.direction = some 12) :
    Compose.flipEntity e false false = e := by
  obtain ⟨nm, ⟨px, py⟩, D⟩ := e
  simp only at hd
  rcases hd with h | h | h | h | h <;> subst h <;> with_unfolding_all rfl

/-- A zero-step `rotateEntity` is the identity on wellformed entities. -/
theorem rotateEntity_zero_id (e : Entity)
    (hd : e.direction = none ∨ e.direction = some 0 ∨ e.direction = some 4 ∨
      e.direction = some 8 ∨ e.direction = some 12) :
    Compose.rotateEntity e 0 = e := by
  obtain ⟨nm, ⟨px, py⟩, D⟩ := e
  simp only at hd
  rcases hd with h | h | h | h | h <;> subst h <;> with_unfolding_all rfl

/-- Under the identity base transform an integer translation step, the
per-entity transform of a wellformed entity is exactly that translation. -/
theorem applyTransform_translate (e : Entity) (hWF : WFe e) (t : ℤ) :
    Compose.applyTransform e false false 0 ((t : ℤ) : ℚ) (((0 : ℤ) : ℚ)) = translateX t e := by
  obtain ⟨hx, hy, hd⟩ := hWF
  unfold Compose.applyTransform
  rw [flipEntity_id e hd, rotateEntity_zero_id e hd]
  unfold translateX
  simp only [Entity.mk.injEq, Pos.mk.injEq, true_and, and_true]
  constructor
  · exact snapToHalf_of_isHalf _ (isHalf_add_int _ t hx)
  · rw [Int.cast_zero, add_zero]
    exact snapToHalf_of_isHalf _ hy

theorem key_translateX (s : ℤ) (e : Entity) :
    Compose.entityKey (translateX s e) = shiftKeyX s (Compose.entityKey e) := rfl

theorem key_translate2 (a b : ℚ) (e : Entity) :
    Compose.entityKey (Compose.translate2 a b e)
      = shiftKey2 a b (Compose.entityKey e) := rfl

theorem shiftKeyX_injective (s : ℤ) : Function.Injective (shiftKeyX s) := by
  rintro ⟨n1, x1, y1, d1⟩ ⟨n2, x2, y2, d2⟩ h
  unfold shiftKeyX at h
  simp only [Prod.mk.injEq] at h ⊢
  obtain ⟨h1, h2, h3, h4⟩ := h
  exact ⟨h1, add_right_cancel h2, h3, h4⟩

theorem shiftKey2_injective (a b : ℚ) : Function.Injective (shiftKey2 a b) := by
  rintro ⟨n1, x1, y1, d1⟩ ⟨n2, x2, y2, d2⟩ h
  unfold shiftKey2 at h
  simp only [Prod.mk.injEq] at h ⊢
  obtain ⟨h1, h2, h3, h4⟩ := h
  exact ⟨h1, add_right_cancel h2, add_right_cancel h3, h4⟩

/-- Normalization preserves wellformedness (it shifts by whole tiles). -/
theorem normEntities_WF (U : List Entity) (p : Compose.Params)
    (hWF : ∀ e ∈ U, WFe e) : ∀ e ∈ Compose.normEntities U p, WFe e := by
  unfold Compose.normEntities
  by_cases hn : p.normalize
  · rw [if_pos hn]
    intro e he
    obtain ⟨e₀, he₀, rfl⟩ := List.mem_map.mp he
    obtain ⟨hx, hy, hd⟩ := hWF e₀ he₀
    refine ⟨?_, ?_, hd⟩
    · show isHalf (e₀.position.x + _)
      rw [← Int.cast_neg]
      exact isHalf_add_int _ _ hx
    · show isHalf (e₀.position.y + _)
      rw [← Int.cast_neg]
      exact isHalf_add_int _ _ hy
  · rw [if_neg hn]; exact hWF

/-- Normalization preserves key distinctness. -/
theorem normEntities_nodup (U : List Entity) (p : Compose.Params)
    (hnd : dupKeyFree U) : dupKeyFree (Compose.normEntities U p) := by
  unfold Compose.normEntities
  by_cases hn : p.normalize
  · rw [if_pos hn]
    unfold dupKeyFree at *
    rw [List.map_map]
    have he : (Compose.entityKey ∘ Compose.translate2
          (-((Compose.footprintBounds U 0 false false).xStart : ℚ))
          (-((Compose.footprintBounds U 0 false false).yStart : ℚ)))
        = (shiftKey2 (-((Compose.footprintBounds U 0 false false).xStart : ℚ))
            (-((Compose.footprintBounds U 0 false false).yStart : ℚ))) ∘ Compose.entityKey := rfl
    rw [he, ← List.map_map]
    exact hnd.map (shiftKey2_injective _ _)
  · rw [if_neg hn]; exact hnd

/-- Uniform translation of the unit leaves the shared-edge count unchanged. -/
theorem kCount_translate2 (U : List Entity) (a b : ℚ) (s : ℤ) :
    kCount (U.map (Compose.translate2 a b)) s = kCount U s := by
  unfold kCount
  rw [List.filter_map, List.length_map]
  apply congrArg
  apply List.filter_congr
  intro e _
  simp only [Function.comp_apply]
  have hk : Compose.entityKey (translateX s (Compose.translate2 a b e))
      = shiftKey2 a b (Compose.entityKey (translateX s e)) := by
    unfold translateX Compose.translate2 Compose.entityKey shiftKey2
    simp [add_right_comm]
  have hm : (U.map (Compose.translate2 a b)).map Compose.entityKey
      = (U.map Compose.entityKey).map (shiftKey2 a b) := by
    rw [List.map_map, List.map_map]; rfl
  rw [decide_eq_decide, hk, hm]
  exact List.mem_map_of_injective (shiftKey2_injective a b)

/-- The dedup output's length is the number of distinct keys of its input. -/
theorem dedupByKey_length (l : List Entity) :
    (Compose.dedupByKey l).length = ((l.map Compose.entityKey).toFinset).card := by
  have h := dedupByKey_keyset l
  have hnd := dedupAux_keys_nodup l []
  calc (Compose.dedupByKey l).length
      = ((Compose.dedupByKey l).map Compose.entityKey).length := (List.length_map _ _).symm
    _ = ((Compose.dedupByKey l).map Compose.entityKey).toFinset.card :=
        (List.toFinset_card_of_nodup hnd).symm
    _ = _ := by rw [h]

/-- Counting distinct keys of a unit next to its one-step translate:
`2N − k` with `k` the shared-edge count. -/
theorem card_union_shift (U : List Entity) (s : ℤ) (hnd : dupKeyFree U) :
    ((U ++ U.map (translateX s)).map Compose.entityKey).toFinset.card
      = 2 * U.length - kCount U s := by
  classical
  have hmapkey : (U.map (translateX s)).map Compose.entityKey
      = (U.map Compose.entityKey).map (shiftKeyX s) := by
    rw [List.map_map, List.map_map]; rfl
  have htofin : ∀ (l : List (String × ℚ × ℚ × Option ℤ))
      (f : (String × ℚ × ℚ × Option ℤ) → (String × ℚ × ℚ × Option ℤ)),
      (l.map f).toFinset = l.toFinset.image f := by
    intro l f; apply Finset.ext; intro a; simp
  have happend : ((U ++ U.map (translateX s)).map Compose.entityKey).toFinset
      = (U.map Compose.entityKey).toFinset
        ∪ ((U.map Compose.entityKey).toFinset).image (shiftKeyX s) := by
    rw [List.map_append, List.toFinset_append, hmapkey, htofin]
  have hinj := shiftKeyX_injective s
  have hcardS : (U.map Compose.entityKey).toFinset.card = U.length := by
    rw [List.toFinset_card_of_nodup hnd, List.length_map]
  have hcardT : (((U.map Compose.entityKey).toFinset).image (shiftKeyX s)).card
      = U.length := by
    rw [Finset.card_image_of_injective _ hinj, hcardS]
  have himg : (U.map Compose.entityKey).toFinset
        ∩ ((U.map Compose.entityKey).toFinset).image (shiftKeyX s)
      = (((U.map Compose.entityKey).toFinset).filter
          (fun k => shiftKeyX s k ∈ (U.map Compose.entityKey).toFinset)).image
          (shiftKeyX s) := by
    apply Finset.ext
    intro y
    simp only [Finset.mem_inter, Finset.mem_image, Finset.mem_filter]
    constructor
    · rintro ⟨hyS, x, hxS, rfl⟩
      exact ⟨x, ⟨hxS, hyS⟩, rfl⟩
    · rintro ⟨x, ⟨hxS, hxshift⟩, rfl⟩
      exact ⟨hxshift, x, hxS, rfl⟩
  have hinter : ((U.map Compose.entityKey).toFinset
        ∩ ((U.map Compose.entityKey).toFinset).image (shiftKeyX s)).card
      = kCount U s := by
    rw [himg, Finset.card_image_of_injective _ hinj]
    unfold kCount
    have hstep : U.filter
          (fun e => decide (Compose.entityKey (translateX s e) ∈ U.map Compose.entityKey))
        = U.filter
          (fun e => decide (shiftKeyX s (Compose.entityKey e)
            ∈ (U.map Compose.entityKey).toFinset)) := by
      apply List.filter_congr
      intro e _
      rw [key_translateX]
      simp [List.mem_toFinset]
    rw [hstep]
    have hlen : (U.filter (fun e => decide (shiftKeyX s (Compose.entityKey e)
          ∈ (U.map Compose.entityKey).toFinset))).length
        = ((U.map Compose.entityKey).filter (fun k => decide (shiftKeyX s k
          ∈ (U.map Compose.entityKey).toFinset))).length := by
      rw [List.filter_map, List.length_map]
      rfl
    rw [hlen]
    have hft : ((U.map Compose.entityKey).filter (fun k => decide (shiftKeyX s k
          ∈ (U.map Compose.entityKey).toFinset))).toFinset
        = ((U.map Compose.entityKey).toFinset).filter
            (fun k => shiftKeyX s k ∈ (U.map Compose.entityKey).toFinset) := by
      apply Finset.ext
      intro a
      simp
    rw [← hft, List.toFinset_card_of_nodup (hnd.filter _)]
  have hun := Finset.card_union_add_card_inter
    ((U.map Compose.entityKey).toFinset)
    (((U.map Compose.entityKey).toFinset).image (shiftKeyX s))
  have hkle : kCount U s ≤ U.length := by
    unfold kCount
    exact le_trans (List.length_filter_le _ _) (le_refl _)
  rw [happend]
  omega

/-- With one row and no per-row overrides the per-tile transform is the
identity. -/
theorem tileTransform_paramsRow (sX sY : ℚ) (shY nrm : Bool) (r : ℤ) :
    Compose.tileTransform (paramsRow sX sY shY nrm) r = (0, false, false) := rfl

/-- A `1×2` composition under the identity base transform is the normalized
unit next to its copy translated by `stepX`. -/
theorem outEntitiesOf_one_two (U : List Entity) (sX sY : ℚ) (shY nrm : Bool)
    (hWF : ∀ e ∈ Compose.normEntities U (paramsRow sX sY shY nrm), WFe e) :
    Compose.outEntitiesOf U (paramsRow sX sY shY nrm)
      = Compose.normEntities U (paramsRow sX sY shY nrm)
        ++ (Compose.normEntities U (paramsRow sX sY shY nrm)).map
            (translateX (Compose.stepXOfUnit U (paramsRow sX sY shY nrm))) := by
  unfold Compose.outEntitiesOf
  rw [show ((List.range (paramsRow sX sY shY nrm).rows.toNat).map Int.ofNat)
        = [0] from rfl,
      show ((List.range (paramsRow sX sY shY nrm).cols.toNat).map Int.ofNat)
        = [0, 1] from rfl]
  simp only [List.flatMap_cons, List.flatMap_nil, List.append_nil]
  unfold Compose.tileEntities
  simp only [tileTransform_paramsRow]
  simp only [show jsAnd3 (paramsRow sX sY shY nrm).rot = 0 from rfl,
    show (paramsRow sX sY shY nrm).flipX = false from rfl,
    show (paramsRow sX sY shY nrm).flipY = false from rfl,
    sub_self, zero_mul, one_mul, add_zero]
  congr 1
  · have h1 : (Compose.normEntities U (paramsRow sX sY shY nrm)).map
          (fun e => Compose.applyTransform e false false 0 (((0 : ℤ) : ℚ)) (((0 : ℤ) : ℚ)))
        = (Compose.normEntities U (paramsRow sX sY shY nrm)).map id := by
      apply List.map_congr_left
      intro e he
      exact (applyTransform_translate e (hWF e he) 0).trans (translateX_zero e)
    rw [h1, List.map_id]
  · apply List.map_congr_left
    intro e he
    exact applyTransform_translate e (hWF e he) (Compose.stepXOfUnit U (paramsRow sX sY shY nrm))

/-- C3: for every non-empty wellformed unit of `N` distinct entities, a
`1×2` composition with `shareX` (step `max(1, ceil(unitWidth + spacingX − 1))`)
returns exactly `2N − k` entities, `k` being the number of unit entities
identical in `(type, position, orientation)` to the next tile's copy. -/
theorem C3_edge_sharing_count :
    ∀ (U : List Entity) (sX sY : ℚ) (shY nrm : Bool),
      U ≠ [] → (∀ e ∈ U, WFe e) → dupKeyFree U →
      Compose.stepXOfUnit U (paramsRow sX sY shY nrm)
          = max 1 (jsCeil (((Compose.footprintBounds
              (Compose.normEntities U (paramsRow sX sY shY nrm)) 0 false false).width : ℚ)
              + sX - 1))
      ∧ (Compose.compose U (paramsRow sX sY shY nrm)).map List.length
          = some (2 * U.length
              - kCount U (Compose.stepXOfUnit U (paramsRow sX sY shY nrm))) := by
  intro U sX sY shY nrm hne hWF hnd
  have hNWF := normEntities_WF U (paramsRow sX sY shY nrm) hWF
  have hNnd := normEntities_nodup U (paramsRow sX sY shY nrm) hnd
  refine ⟨rfl, ?_⟩
  unfold Compose.compose Compose.composeDedup
  rw [if_neg hne]
  show some ((Compose.repairInserters
      (Compose.dedupByKey (Compose.outEntitiesOf U (paramsRow sX sY shY nrm)))).length) = _
  refine congrArg some ?_
  have hrep : (Compose.repairInserters
      (Compose.dedupByKey (Compose.outEntitiesOf U (paramsRow sX sY shY nrm)))).length
      = (Compose.dedupByKey (Compose.outEntitiesOf U (paramsRow sX sY shY nrm))).length := by
    unfold Compose.repairInserters
    rw [List.length_map]
  rw [hrep, dedupByKey_length, outEntitiesOf_one_two U sX sY shY nrm hNWF,
    card_union_shift _ _ hNnd]
  have hlen : (Compose.normEntities U (paramsRow sX sY shY nrm)).length = U.length := by
    unfold Compose.normEntities
    by_cases h : (paramsRow sX sY shY nrm).normalize
    · rw [if_pos h, List.length_map]
    · rw [if_neg h]
  have hk : kCount (Compose.normEntities U (paramsRow sX sY shY nrm))
        (Compose.stepXOfUnit U (paramsRow sX sY shY nrm))
      = kCount U (Compose.stepXOfUnit U (paramsRow sX sY shY nrm)) := by
    unfold Compose.normEntities
    by_cases h : (paramsRow sX sY shY nrm).normalize
    · rw [if_pos h]
      exact kCount_translate2 U _ _ _
    · rw [if_neg h]
  rw [hlen, hk]

/-- C3 witnessed: a three-belt unit whose trailing belt coincides with the
next tile's leading belt (`k = 1`) composes `1×2` with `shareX` to exactly
`2·3 − 1 = 5` entities. -/
theorem C3_edge_sharing_count_witness :
    (Compose.compose unitBelt3 (paramsRow 0 1 false true)).map List.length = some 5 := by
  have h := (C3_edge_sharing_count unitBelt3 0 1 false true
      (of_decide_eq_true (by with_unfolding_all rfl))
      (of_decide_eq_true (by with_unfolding_all rfl))
      (of_decide_eq_true (by with_unfolding_all rfl))).2
  rw [h]
  with_unfolding_all rfl

end FactorioAI

